import Mathlib

/-!
Verification model of the organizer engine of `file_organizer_gui.py`
(repository 1tzvaish/FileManager).

The engine scans the immediate entries of a target directory, classifies
each file by its lowercased extension using `FILE_TYPE_MAP`, accumulates
per-category analytics plus a flat size list, and (when not a dry run)
moves each file into its category subfolder, recording `(destination,
source)` pairs in `last_move_actions` for a later undo pass.

The filesystem is modelled shallowly: the target directory's immediate
entries are an association list from names to entries, where an entry is
either a plain file (a byte list) or a subdirectory holding its own files.
This covers every state the engine itself can produce or inspect (the
engine never recurses).  `shutil.move` is modelled with its real library
semantics: moving onto an existing destination *file* silently replaces
it (the `os.rename` path), moving onto an existing destination
*directory* places the file inside that directory, raising an error only
when the name is already taken there.  OS-level per-call failures that are
not determined by directory contents (permission errors, broken links,
cross-device failures) are injected through an explicit environment of
per-item outcomes, mirroring the `try/except` structure of the source.
-/

namespace FileOrganizer

/-- File contents as a byte list; only its identity and length matter. -/
abbrev Content := List Nat

/-- An immediate entry of the target directory: a plain file or a
subdirectory with its own files (the engine never looks deeper). -/
inductive Entry where
  | file (content : Content)
  | dir (files : List (String × Content))
deriving DecidableEq

/-- The target directory: its immediate entries, in listing order. -/
structure FS where
  root : List (String × Entry)
deriving DecidableEq

/-- A path relative to the target directory, as components. -/
abbrev Path := List String

/-- `os.listdir(target_path)`: the entry names in listing order. -/
def listdir (fs : FS) : List String :=
  fs.root.map Prod.fst

/-- Look up the immediate entry with the given name (first match). -/
def rootFind (fs : FS) (n : String) : Option Entry :=
  match fs.root.find? (fun e => e.1 == n) with
  | some e => some e.2
  | none => none

/-- The reserved filenames skipped at line 106 of the source. -/
def RESERVED_NAMES : List String :=
  ["file_organizer_app.py", "file_organizer.log"]

/-- `FILE_TYPE_MAP` from the source, as an ordered association list
(Python dicts iterate in insertion order). -/
def FILE_TYPE_MAP : List (String × List String) :=
  [ ("Images", [".jpg", ".jpeg", ".png", ".gif", ".bmp", ".svg", ".tiff"]),
    ("Documents", [".pdf", ".docx", ".doc", ".txt", ".pptx", ".xlsx", ".odt", ".rtf"]),
    ("Videos", [".mp4", ".mov", ".avi", ".mkv", ".flv", ".wmv"]),
    ("Audio", [".mp3", ".wav", ".aac", ".flac", ".ogg"]),
    ("Archives", [".zip", ".rar", ".7z", ".tar", ".gz"]),
    ("Scripts", [".py", ".js", ".html", ".css", ".sh", ".bat"]),
    ("Others", []) ]

/-- The category names, in rule-iteration order. -/
def categoryNames : List String :=
  FILE_TYPE_MAP.map Prod.fst

/-- The suffix of a name from its last dot (inclusive), or `[]` when the
name has no dot.  Helper for `splitext_ext`. -/
def extTail : List Char → List Char
  | [] => []
  | ch :: rest =>
    let e := extTail rest
    if e.isEmpty then (if ch = '.' then ch :: rest else []) else e

/-- `os.path.splitext(item_name)[1]`: the extension including the leading
dot; leading dots of the name do not start an extension (CPython's
`_splitext` with no separator in the name). -/
def splitext_ext (name : String) : String :=
  String.mk (extTail (name.data.dropWhile (fun ch => ch = '.')))

/-- ASCII `str.lower()` on the extension. -/
def strLower (s : String) : String :=
  String.mk (s.data.map Char.toLower)

/-- The lowercased extension of an item name (source line 114). -/
def extLower (name : String) : String :=
  strLower (splitext_ext name)

/-- The classification loop of source lines 117-121: start from
`"Others"` and take the first rule whose extension set contains the
extension. -/
def classifyLoop (ext : String) : List (String × List String) → String
  | [] => "Others"
  | (cat, exts) :: rest =>
    if exts.contains ext then cat else classifyLoop ext rest

/-- The category assigned to a lowercased extension. -/
def classify (ext : String) : String :=
  classifyLoop ext FILE_TYPE_MAP

/-- Severity of a log emission. -/
inductive Sev where
  | info
  | warning
  | error
deriving DecidableEq

/-- The log emissions of one engine run, as structured events (the source
formats them as strings through `log_and_update`). -/
inductive Event where
  | start
  | skipDir (name : String)
  | analyzeWarn (name : String)
  | wouldMove (name cat : String)
  | moved (name cat : String)
  | moveCollisionWarn (name : String)
  | moveError (name : String)
  | noNewFiles
  | complete
  | topError
  | undoStart
  | reverted (name : String)
  | undoError (name : String)
  | undoComplete
  | nothingToUndo
deriving DecidableEq

/-- Severity of each event, matching the `level` argument passed to
`log_and_update` in the source. -/
def Event.sev : Event → Sev
  | .analyzeWarn _ => .warning
  | .moveCollisionWarn _ => .warning
  | .moveError _ => .error
  | .topError => .error
  | .undoError _ => .error
  | _ => .info

/-- Injected OS-level outcomes that directory contents do not determine:
whether the initial listing fails, whether `os.path.getsize` raises for
an item, and whether `shutil.move` raises for an item (`some true` is a
`shutil.Error`, `some false` any other exception, `none` lets the move
proceed by its content-determined semantics). -/
structure Env where
  listFails : Bool
  sizeFails : String → Bool
  moveFails : String → Option Bool

/-- The environment in which every OS call succeeds. -/
def benignEnv : Env :=
  { listFails := false, sizeFails := fun _ => false, moveFails := fun _ => none }

/-- Per-category `{count, size}` figures, keyed like `FILE_TYPE_MAP`. -/
abbrev Analytics := List (String × Nat × Nat)

/-- Source lines 95-96: every category starts at zero count and size. -/
def zeroAnalytics : Analytics :=
  FILE_TYPE_MAP.map (fun p => (p.1, 0, 0))

/-- Source lines 122-123: increment the category's count and add the
file's size. -/
def bumpAnalytics (a : Analytics) (cat : String) (size : Nat) : Analytics :=
  a.map (fun e => if e.1 == cat then (e.1, e.2.1 + 1, e.2.2 + size) else e)

/-- The mutable state of one `organize_directory` run: the directory, the
analytics being accumulated, the flat size list, `files_processed_count`,
`last_move_actions`, and the emitted log events. -/
structure RunState where
  fs : FS
  analytics : Analytics
  sizes : List Nat
  processed : Nat
  actions : List (Path × Path)
  events : List Event
deriving DecidableEq

/-- `os.makedirs(dest_folder_path, exist_ok=True)`: create the category
subfolder when absent (appended at the end of the listing). -/
def ensureDir (fs : FS) (cat : String) : FS :=
  match rootFind fs cat with
  | none => ⟨fs.root ++ [(cat, Entry.dir [])]⟩
  | some _ => fs

/-- `shutil.move(source_item_path, final_dest_path)` for the organize
step, after `ensureDir` guaranteed the category subfolder exists: remove
the file from the top level and place it in the category subfolder,
silently replacing an existing file of the same name there (the
`os.rename` overwrite path of `shutil.move`). -/
def doMove (fs : FS) (n cat : String) (c : Content) : FS :=
  ⟨(fs.root.eraseP (fun e => e.1 == n)).map (fun e =>
    if e.1 == cat then
      match e.2 with
      | Entry.dir files =>
        (e.1, Entry.dir
          (if files.any (fun f => f.1 == n)
           then files.map (fun f => if f.1 == n then (n, c) else f)
           else files ++ [(n, c)]))
      | x => (e.1, x)
    else e)⟩

/-- The body of the `for item_name in all_items` loop (source lines
103-144), for one item. -/
def processItem (env : Env) (dry_run : Bool) (st : RunState) (item_name : String) :
    RunState :=
  if RESERVED_NAMES.contains item_name then st
  else
    match rootFind st.fs item_name with
    | some (Entry.dir _) =>
      { st with events := st.events ++ [Event.skipDir item_name] }
    | none =>
      { st with events := st.events ++ [Event.analyzeWarn item_name] }
    | some (Entry.file c) =>
      if env.sizeFails item_name then
        { st with events := st.events ++ [Event.analyzeWarn item_name] }
      else
        let file_size := c.length
        let category := classify (extLower item_name)
        let st1 : RunState :=
          { st with
            sizes := st.sizes ++ [file_size],
            analytics := bumpAnalytics st.analytics category file_size }
        if dry_run then
          { st1 with
            events := st1.events ++ [Event.wouldMove item_name category],
            processed := st1.processed + 1 }
        else
          match rootFind st.fs category with
          | some (Entry.file _) =>
            { st1 with events := st1.events ++ [Event.moveError item_name] }
          | _ =>
            let fs1 := ensureDir st.fs category
            match env.moveFails item_name with
            | some true =>
              { st1 with
                fs := fs1,
                events := st1.events ++ [Event.moveCollisionWarn item_name] }
            | some false =>
              { st1 with
                fs := fs1,
                events := st1.events ++ [Event.moveError item_name] }
            | none =>
              { st1 with
                fs := doMove fs1 item_name category c,
                events := st1.events ++ [Event.moved item_name category],
                actions := st1.actions ++ [([category, item_name], [item_name])],
                processed := st1.processed + 1 }

/-- `organize_directory(target_path, dry_run)` (source lines 79-157):
clears `last_move_actions` when not a dry run, lists the directory (the
only fatal failure point), folds the loop body over the listing, and
emits the trailing info messages. -/
def organize_directory (env : Env) (target : FS) (dry_run : Bool)
    (last_move_actions : List (Path × Path)) : RunState :=
  let st0 : RunState :=
    { fs := target, analytics := zeroAnalytics, sizes := [], processed := 0,
      actions := if dry_run then last_move_actions else [],
      events := [Event.start] }
  if env.listFails then
    { st0 with events := st0.events ++ [Event.topError] }
  else
    let st1 := (listdir target).foldl (processItem env dry_run) st0
    let st2 :=
      if st1.processed == 0 then
        { st1 with events := st1.events ++ [Event.noNewFiles] }
      else st1
    { st2 with events := st2.events ++ [Event.complete] }

/-- State of the undo pass: the directory and the emitted log events. -/
structure UndoState where
  fs : FS
  events : List Event
deriving DecidableEq

/-- One iteration of the undo loop (source lines 172-178):
`shutil.move(source, dest)` with `source` the recorded destination
`[d, n]` and `dest` the recorded original `[m]`.  `os.makedirs` on the
parent of `dest` is a no-op (that parent is the target directory).  The
move follows `shutil.move`'s semantics: a destination that exists as a
directory receives the file inside itself unless the name is taken there
(then `shutil.Error`); a destination that exists as a file is silently
replaced; any failure (including a missing source) is caught, logged as
an error, and the loop continues. -/
def undoOne (st : UndoState) (act : Path × Path) : UndoState :=
  match act with
  | ([d, n], [m]) =>
    match rootFind st.fs d with
    | some (Entry.dir files) =>
      match files.find? (fun f => f.1 == n) with
      | some f =>
        let c := f.2
        let removed : List (String × Entry) :=
          st.fs.root.map (fun e =>
            if e.1 == d then (e.1, Entry.dir (files.eraseP (fun g => g.1 == n)))
            else e)
        match rootFind st.fs m with
        | some (Entry.dir g) =>
          if g.any (fun h => h.1 == n) then
            { st with events := st.events ++ [Event.undoError n] }
          else
            { fs := ⟨removed.map (fun e =>
                if e.1 == m then (e.1, Entry.dir (g ++ [(n, c)])) else e)⟩,
              events := st.events ++ [Event.reverted n] }
        | some (Entry.file _) =>
          { fs := ⟨removed.map (fun e =>
              if e.1 == m then (e.1, Entry.file c) else e)⟩,
            events := st.events ++ [Event.reverted n] }
        | none =>
          { fs := ⟨removed ++ [(m, Entry.file c)]⟩,
            events := st.events ++ [Event.reverted n] }
      | none => { st with events := st.events ++ [Event.undoError n] }
    | _ => { st with events := st.events ++ [Event.undoError n] }
  | (_, _) => { st with events := st.events ++ [Event.undoError ""] }

/-- Result of `undo_last_organization`: the directory, the (cleared)
action list, and the emitted log events. -/
structure UndoResult where
  fs : FS
  actions : List (Path × Path)
  events : List Event
deriving DecidableEq

/-- `undo_last_organization` (source lines 159-181): an empty action list
reports "nothing to undo" and does nothing; otherwise the actions are
replayed most-recent-first and the list is cleared afterwards. -/
def undo_last_organization (fs : FS) (last_move_actions : List (Path × Path)) :
    UndoResult :=
  if last_move_actions.isEmpty then
    { fs := fs, actions := last_move_actions, events := [Event.nothingToUndo] }
  else
    let st := last_move_actions.reverse.foldl undoOne
      { fs := fs, events := [Event.undoStart] }
    { fs := st.fs, actions := [], events := st.events ++ [Event.undoComplete] }

/-- All files reachable from the target directory, as (path, content)
pairs: the tool's notion of the directory tree's file set. -/
def fileSet (fs : FS) : List (Path × Content) :=
  (fs.root.map (fun e =>
    match e.2 with
    | Entry.file c => [([e.1], c)]
    | Entry.dir files => files.map (fun f => ([e.1, f.1], f.2)))).flatten

/-- Total file count over all categories of an analytics snapshot. -/
def sumCounts (a : Analytics) : Nat :=
  (a.map (fun e => e.2.1)).sum

/-- Total size over all categories of an analytics snapshot. -/
def sumSizes (a : Analytics) : Nat :=
  (a.map (fun e => e.2.2)).sum

/-- The names of the immediate entries. -/
def rootNames (fs : FS) : List String :=
  fs.root.map Prod.fst

/-- Whether an entry is a subdirectory. -/
def Entry.isADir : Entry → Bool
  | Entry.dir _ => true
  | Entry.file _ => false

/-- The names of the immediate plain files. -/
def rootFileNames (fs : FS) : List String :=
  (fs.root.filter (fun e => !(e.2.isADir))).map Prod.fst

/-- Well-formedness every real directory satisfies: entry names are
distinct at the top level and inside each subdirectory. -/
def WfFS (fs : FS) : Prop :=
  (rootNames fs).Nodup ∧
  ∀ e ∈ fs.root, ∀ fls, e.2 = Entry.dir fls → (fls.map Prod.fst).Nodup

/-- No top-level plain file bears a category name. -/
def NoCatFiles (fs : FS) : Prop :=
  ∀ n ∈ rootFileNames fs, n ∉ categoryNames

/-- No top-level plain file's name already occurs inside any
subdirectory (so no move can land on an existing destination). -/
def NoCollision (fs : FS) : Prop :=
  ∀ n ∈ rootFileNames fs, ∀ e ∈ fs.root, ∀ fls, e.2 = Entry.dir fls →
    n ∉ fls.map Prod.fst

/-- Every event of the list is informational (no warning, no error). -/
def allInfo (evs : List Event) : Prop :=
  ∀ e ∈ evs, e.sev = Sev.info

/-- A record of one completed move: category, file name, content. -/
abbrev Moved := String × String × Content

/-- The `last_move_actions` entries corresponding to a list of completed
moves, in move order. -/
def actionsOf (moved : List Moved) : List (Path × Path) :=
  moved.map (fun m => ([m.1, m.2.1], [m.2.1]))

/-- The names of the moved files, in move order. -/
def movedNames (moved : List Moved) : List String :=
  moved.map (fun m => m.2.1)

/-- The directory obtained from `fs` by dropping the moved files from the
top level, appending the subfolders created during the run (empty again
once the moves are undone) and re-appending the moved files in undo
(reverse) order.  This is the exact directory an organize pass followed
by an undo pass produces. -/
def shapeFS (fs : FS) (moved : List Moved) (created : List String) : FS :=
  ⟨fs.root.filter (fun e => !((movedNames moved).contains e.1)) ++
    created.map (fun d => (d, Entry.dir [])) ++
    moved.reverse.map (fun m => (m.2.1, Entry.file m.2.2))⟩

/-- The directory part of replaying an action list most-recent-first. -/
def undoFold (acts : List (Path × Path)) (fs : FS) : FS :=
  (acts.reverse.foldl undoOne { fs := fs, events := [] }).fs

/-- The files of a list of still-standing moves that live inside the
category subfolder `d`, in move order. -/
def intoDir (pending : List Moved) (d : String) : List (String × Content) :=
  (pending.filter (fun m => m.1 == d)).map (fun m => (m.2.1, m.2.2))

/-- A surviving top-level entry of the original directory, with the
still-standing moves into it appended when it is a subfolder. -/
def orgEntry (pending : List Moved) (e : String × Entry) : String × Entry :=
  match e.2 with
  | Entry.dir fls => (e.1, Entry.dir (fls ++ intoDir pending e.1))
  | _ => e

/-- A category subfolder created during the organize pass, holding the
still-standing moves into it. -/
def keyDir (pending : List Moved) (d : String) : String × Entry :=
  (d, Entry.dir (intoDir pending d))

/-- The top-level file a completed move started from (and that undoing
the move re-creates). -/
def fileOf (m : Moved) : String × Entry :=
  (m.2.1, Entry.file m.2.2)

/-- The directory reached mid-way through an organize-then-undo cycle on
`fs0`: the top-level entries of `fs0` whose names are in `allN` are gone,
each surviving subfolder holds its original files plus the
still-standing moves into it, the subfolders in `created` were made by
the organize pass, and the files of `restored` have been appended back
at the top level by the undo pass. -/
def midShape (fs0 : FS) (allN : List String) (created : List String)
    (pending : List Moved) (restored : List Moved) : FS :=
  ⟨(fs0.root.filter (fun e => !(allN.contains e.1))).map (orgEntry pending) ++
    created.map (keyDir pending) ++
    restored.map fileOf⟩

/-- The bookkeeping invariant of a non-dry organize pass on `fs0`: the
moves recorded so far took top-level files of `fs0` into category
folders that either pre-existed in `fs0` or were created during the
pass, no file was moved twice, and the created folders bear fresh
category names. -/
def GoodRun (fs0 : FS) (pending : List Moved) (created : List String) : Prop :=
  (∀ m ∈ pending, (m.2.1, Entry.file m.2.2) ∈ fs0.root) ∧
  (∀ m ∈ pending, m.1 ∈ categoryNames) ∧
  (∀ m ∈ pending, m.1 ∈ rootNames fs0 ∨ m.1 ∈ created) ∧
  (movedNames pending).Nodup ∧
  created.Nodup ∧
  (∀ d ∈ created, d ∈ categoryNames) ∧
  (∀ d ∈ created, d ∉ rootNames fs0)

/-! ### Classification lemmas -/

theorem classifyLoop_find?_some (ext : String) :
    ∀ (rules : List (String × List String)) (p : String × List String),
      rules.find? (fun q => q.2.contains ext) = some p →
      classifyLoop ext rules = p.1 := by
  intro rules
  induction rules with
  | nil => intro p h; simp [List.find?] at h
  | cons r rest ih =>
    intro p h
    by_cases hc : r.2.contains ext
    · simp only [List.find?, hc, Option.some.injEq] at h
      cases r with
      | mk a b =>
        subst h
        have hm : ext ∈ b := by simpa using hc
        simp [classifyLoop, hm]
    · simp only [List.find?, hc] at h
      cases r with
      | mk a b =>
        simp only [classifyLoop]
        rw [if_neg (by simpa using hc)]
        exact ih p h

theorem classifyLoop_find?_none (ext : String) :
    ∀ (rules : List (String × List String)),
      rules.find? (fun q => q.2.contains ext) = none →
      classifyLoop ext rules = "Others" := by
  intro rules
  induction rules with
  | nil => intro _; rfl
  | cons r rest ih =>
    intro h
    by_cases hc : r.2.contains ext
    · simp only [List.find?, hc] at h
      exact absurd h (by simp)
    · simp only [List.find?, hc] at h
      cases r with
      | mk a b =>
        simp only [classifyLoop]
        rw [if_neg (by simpa using hc)]
        exact ih h

/-! ### Dry-run frame lemmas -/

theorem processItem_dry_fs (env : Env) (st : RunState) (n : String) :
    (processItem env true st n).fs = st.fs := by
  unfold processItem
  repeat' (first | rfl | split)

theorem processItem_dry_actions (env : Env) (st : RunState) (n : String) :
    (processItem env true st n).actions = st.actions := by
  unfold processItem
  repeat' (first | rfl | split)

theorem foldl_dry_fs (env : Env) :
    ∀ (l : List String) (st : RunState),
      (l.foldl (processItem env true) st).fs = st.fs := by
  intro l
  induction l with
  | nil => intro st; rfl
  | cons a t ih =>
    intro st
    rw [List.foldl_cons]
    exact (ih _).trans (processItem_dry_fs env st a)

theorem foldl_dry_actions (env : Env) :
    ∀ (l : List String) (st : RunState),
      (l.foldl (processItem env true) st).actions = st.actions := by
  intro l
  induction l with
  | nil => intro st; rfl
  | cons a t ih =>
    intro st
    rw [List.foldl_cons]
    exact (ih _).trans (processItem_dry_actions env st a)

/-! ### Claim theorems -/

/-- Claim C4: a file whose lowercased extension is matched by some rule
is assigned the first category in rule-iteration order whose extension
set contains that extension; a file whose extension matches no rule is
classified "Others". -/
theorem classify_first_match_or_others (name : String) (p : String × List String)
    (h : FILE_TYPE_MAP.find? (fun q => q.2.contains (extLower name)) = some p) :
    classify (extLower name) = p.1 ∧
    ∀ name', (∀ q ∈ FILE_TYPE_MAP, extLower name' ∉ q.2) →
      classify (extLower name') = "Others" := by
  constructor
  · exact classifyLoop_find?_some (extLower name) FILE_TYPE_MAP p h
  · intro name' h'
    apply classifyLoop_find?_none
    rw [List.find?_eq_none]
    intro q hq
    simpa using h' q hq

/-- Witness for claim C4 at the concrete inputs "photo.JPG" (first
matching rule is Images) and "x.zzz" (no matching rule). -/
theorem classify_first_match_or_others_witness :
    FILE_TYPE_MAP.find? (fun q => q.2.contains (extLower "photo.JPG")) =
      some ("Images", [".jpg", ".jpeg", ".png", ".gif", ".bmp", ".svg", ".tiff"]) ∧
    classify (extLower "photo.JPG") = "Images" ∧
    classify (extLower "x.zzz") = "Others" := by
  refine ⟨by decide, ?_, ?_⟩
  · exact (classify_first_match_or_others "photo.JPG"
      ("Images", [".jpg", ".jpeg", ".png", ".gif", ".bmp", ".svg", ".tiff"])
      (by decide)).1
  · exact (classify_first_match_or_others "photo.JPG"
      ("Images", [".jpg", ".jpeg", ".png", ".gif", ".bmp", ".svg", ".tiff"])
      (by decide)).2 "x.zzz" (by decide)

/-- Claim C10: a dry run returns the action log it was given: only a
non-dry run clears `last_move_actions` and only real moves append to it,
so the undo log of the last real run survives any number of dry runs. -/
theorem dry_run_preserves_action_log (env : Env) (fs : FS)
    (prev : List (Path × Path)) :
    (organize_directory env fs true prev).actions = prev := by
  unfold organize_directory
  by_cases h : env.listFails
  · simp [h]
  · simp only [h, Bool.false_eq_true, if_false]
    repeat' split <;> simp_all [foldl_dry_actions]

set_option maxHeartbeats 1000000 in
/-- Claim C8: for a directory holding exactly photo.JPG (2048 bytes),
notes.txt (100 bytes) and archive.unknownext (500 bytes), a non-dry run
moves them into Images/, Documents/ and Others/ respectively and reports
counts 1/1/1 with sizes 2048/100/500 and three processed files. -/
theorem scenario_three_files (c1 c2 c3 : Content)
    (h1 : c1.length = 2048) (h2 : c2.length = 100) (h3 : c3.length = 500) :
    (organize_directory benignEnv
        ⟨[("photo.JPG", Entry.file c1), ("notes.txt", Entry.file c2),
          ("archive.unknownext", Entry.file c3)]⟩ false []).analytics =
      [("Images", 1, 2048), ("Documents", 1, 100), ("Videos", 0, 0), ("Audio", 0, 0),
       ("Archives", 0, 0), ("Scripts", 0, 0), ("Others", 1, 500)] ∧
    (organize_directory benignEnv
        ⟨[("photo.JPG", Entry.file c1), ("notes.txt", Entry.file c2),
          ("archive.unknownext", Entry.file c3)]⟩ false []).processed = 3 ∧
    rootFind (organize_directory benignEnv
        ⟨[("photo.JPG", Entry.file c1), ("notes.txt", Entry.file c2),
          ("archive.unknownext", Entry.file c3)]⟩ false []).fs "Images" =
      some (Entry.dir [("photo.JPG", c1)]) ∧
    rootFind (organize_directory benignEnv
        ⟨[("photo.JPG", Entry.file c1), ("notes.txt", Entry.file c2),
          ("archive.unknownext", Entry.file c3)]⟩ false []).fs "Documents" =
      some (Entry.dir [("notes.txt", c2)]) ∧
    rootFind (organize_directory benignEnv
        ⟨[("photo.JPG", Entry.file c1), ("notes.txt", Entry.file c2),
          ("archive.unknownext", Entry.file c3)]⟩ false []).fs "Others" =
      some (Entry.dir [("archive.unknownext", c3)]) := by
  have hs1 : processItem benignEnv false
      { fs := ⟨[("photo.JPG", Entry.file c1), ("notes.txt", Entry.file c2),
                ("archive.unknownext", Entry.file c3)]⟩,
        analytics := zeroAnalytics, sizes := [], processed := 0,
        actions := [], events := [Event.start] } "photo.JPG" =
      { fs := ⟨[("notes.txt", Entry.file c2), ("archive.unknownext", Entry.file c3),
                ("Images", Entry.dir [("photo.JPG", c1)])]⟩,
        analytics := [("Images", 1, 0 + c1.length), ("Documents", 0, 0),
                      ("Videos", 0, 0), ("Audio", 0, 0), ("Archives", 0, 0),
                      ("Scripts", 0, 0), ("Others", 0, 0)],
        sizes := [c1.length], processed := 1,
        actions := [(["Images", "photo.JPG"], ["photo.JPG"])],
        events := [Event.start, Event.moved "photo.JPG" "Images"] } := rfl
  have hs2 : processItem benignEnv false
      { fs := ⟨[("notes.txt", Entry.file c2), ("archive.unknownext", Entry.file c3),
                ("Images", Entry.dir [("photo.JPG", c1)])]⟩,
        analytics := [("Images", 1, 0 + c1.length), ("Documents", 0, 0),
                      ("Videos", 0, 0), ("Audio", 0, 0), ("Archives", 0, 0),
                      ("Scripts", 0, 0), ("Others", 0, 0)],
        sizes := [c1.length], processed := 1,
        actions := [(["Images", "photo.JPG"], ["photo.JPG"])],
        events := [Event.start, Event.moved "photo.JPG" "Images"] } "notes.txt" =
      { fs := ⟨[("archive.unknownext", Entry.file c3),
                ("Images", Entry.dir [("photo.JPG", c1)]),
                ("Documents", Entry.dir [("notes.txt", c2)])]⟩,
        analytics := [("Images", 1, 0 + c1.length), ("Documents", 1, 0 + c2.length),
                      ("Videos", 0, 0), ("Audio", 0, 0), ("Archives", 0, 0),
                      ("Scripts", 0, 0), ("Others", 0, 0)],
        sizes := [c1.length, c2.length], processed := 2,
        actions := [(["Images", "photo.JPG"], ["photo.JPG"]),
                    (["Documents", "notes.txt"], ["notes.txt"])],
        events := [Event.start, Event.moved "photo.JPG" "Images",
                   Event.moved "notes.txt" "Documents"] } := rfl
  have hs3 : processItem benignEnv false
      { fs := ⟨[("archive.unknownext", Entry.file c3),
                ("Images", Entry.dir [("photo.JPG", c1)]),
                ("Documents", Entry.dir [("notes.txt", c2)])]⟩,
        analytics := [("Images", 1, 0 + c1.length), ("Documents", 1, 0 + c2.length),
                      ("Videos", 0, 0), ("Audio", 0, 0), ("Archives", 0, 0),
                      ("Scripts", 0, 0), ("Others", 0, 0)],
        sizes := [c1.length, c2.length], processed := 2,
        actions := [(["Images", "photo.JPG"], ["photo.JPG"]),
                    (["Documents", "notes.txt"], ["notes.txt"])],
        events := [Event.start, Event.moved "photo.JPG" "Images",
                   Event.moved "notes.txt" "Documents"] } "archive.unknownext" =
      { fs := ⟨[("Images", Entry.dir [("photo.JPG", c1)]),
                ("Documents", Entry.dir [("notes.txt", c2)]),
                ("Others", Entry.dir [("archive.unknownext", c3)])]⟩,
        analytics := [("Images", 1, 0 + c1.length), ("Documents", 1, 0 + c2.length),
                      ("Videos", 0, 0), ("Audio", 0, 0), ("Archives", 0, 0),
                      ("Scripts", 0, 0), ("Others", 1, 0 + c3.length)],
        sizes := [c1.length, c2.length, c3.length], processed := 3,
        actions := [(["Images", "photo.JPG"], ["photo.JPG"]),
                    (["Documents", "notes.txt"], ["notes.txt"]),
                    (["Others", "archive.unknownext"], ["archive.unknownext"])],
        events := [Event.start, Event.moved "photo.JPG" "Images",
                   Event.moved "notes.txt" "Documents",
                   Event.moved "archive.unknownext" "Others"] } := rfl
  have hrun : organize_directory benignEnv
      ⟨[("photo.JPG", Entry.file c1), ("notes.txt", Entry.file c2),
        ("archive.unknownext", Entry.file c3)]⟩ false [] =
      { fs := ⟨[("Images", Entry.dir [("photo.JPG", c1)]),
                ("Documents", Entry.dir [("notes.txt", c2)]),
                ("Others", Entry.dir [("archive.unknownext", c3)])]⟩,
        analytics := [("Images", 1, 0 + c1.length), ("Documents", 1, 0 + c2.length),
                      ("Videos", 0, 0), ("Audio", 0, 0), ("Archives", 0, 0),
                      ("Scripts", 0, 0), ("Others", 1, 0 + c3.length)],
        sizes := [c1.length, c2.length, c3.length], processed := 3,
        actions := [(["Images", "photo.JPG"], ["photo.JPG"]),
                    (["Documents", "notes.txt"], ["notes.txt"]),
                    (["Others", "archive.unknownext"], ["archive.unknownext"])],
        events := [Event.start, Event.moved "photo.JPG" "Images",
                   Event.moved "notes.txt" "Documents",
                   Event.moved "archive.unknownext" "Others", Event.complete] } := by
    simp only [organize_directory, listdir, List.map, List.foldl]
    rw [show benignEnv.listFails = false from rfl]
    simp only [Bool.false_eq_true, if_false]
    rw [hs1, hs2, hs3]
    simp
  rw [hrun]
  simp [rootFind, h1, h2, h3]

/-- Witness for claim C8 with concrete byte lists of the stated sizes. -/
theorem scenario_three_files_witness :
    (List.replicate 2048 0).length = 2048 ∧
    (List.replicate 100 0).length = 100 ∧
    (List.replicate 500 0).length = 500 ∧
    (organize_directory benignEnv
        ⟨[("photo.JPG", Entry.file (List.replicate 2048 0)),
          ("notes.txt", Entry.file (List.replicate 100 0)),
          ("archive.unknownext", Entry.file (List.replicate 500 0))]⟩ false []).analytics =
      [("Images", 1, 2048), ("Documents", 1, 100), ("Videos", 0, 0), ("Audio", 0, 0),
       ("Archives", 0, 0), ("Scripts", 0, 0), ("Others", 1, 500)] ∧
    (organize_directory benignEnv
        ⟨[("photo.JPG", Entry.file (List.replicate 2048 0)),
          ("notes.txt", Entry.file (List.replicate 100 0)),
          ("archive.unknownext", Entry.file (List.replicate 500 0))]⟩ false []).processed = 3 :=
  ⟨by rw [List.length_replicate], by rw [List.length_replicate],
   by rw [List.length_replicate],
   (scenario_three_files (List.replicate 2048 0) (List.replicate 100 0)
     (List.replicate 500 0) (by rw [List.length_replicate])
     (by rw [List.length_replicate]) (by rw [List.length_replicate])).1,
   (scenario_three_files (List.replicate 2048 0) (List.replicate 100 0)
     (List.replicate 500 0) (by rw [List.length_replicate])
     (by rw [List.length_replicate]) (by rw [List.length_replicate])).2.1⟩

theorem bumpAnalytics_keys (a : Analytics) (cat : String) (s : Nat) :
    (bumpAnalytics a cat s).map Prod.fst = a.map Prod.fst := by
  unfold bumpAnalytics
  rw [List.map_map]
  apply List.map_congr_left
  intro e _
  simp only [Function.comp_apply]
  split <;> rfl

theorem processItem_analytics_sizes (env : Env) (dry : Bool) (st : RunState)
    (n : String) :
    ((processItem env dry st n).analytics = st.analytics ∧
     (processItem env dry st n).sizes = st.sizes) ∨
    (∃ c : Content,
      (processItem env dry st n).analytics =
        bumpAnalytics st.analytics (classify (extLower n)) c.length ∧
      (processItem env dry st n).sizes = st.sizes ++ [c.length]) := by
  unfold processItem
  dsimp only
  repeat' split
  all_goals first
    | (left; exact ⟨rfl, rfl⟩)
    | (right; exact ⟨_, rfl, rfl⟩)

theorem bumpAnalytics_of_not_mem (cat : String) (s : Nat) :
    ∀ (a : Analytics), cat ∉ a.map Prod.fst → bumpAnalytics a cat s = a := by
  intro a
  induction a with
  | nil => intro _; rfl
  | cons e t ih =>
    intro h
    simp only [List.map_cons, List.mem_cons] at h
    push_neg at h
    simp only [bumpAnalytics, List.map_cons]
    rw [if_neg (by simpa using fun hh => h.1 hh.symm)]
    have ht := ih h.2
    simp only [bumpAnalytics] at ht
    rw [ht]

theorem bumpAnalytics_sums (cat : String) (s : Nat) :
    ∀ (a : Analytics), cat ∈ a.map Prod.fst → (a.map Prod.fst).Nodup →
      sumCounts (bumpAnalytics a cat s) = sumCounts a + 1 ∧
      sumSizes (bumpAnalytics a cat s) = sumSizes a + s := by
  intro a
  induction a with
  | nil => intro h _; simp at h
  | cons e t ih =>
    intro hmem hnd
    simp only [List.map_cons, List.nodup_cons] at hnd
    by_cases h : e.1 = cat
    · have hnm : cat ∉ t.map Prod.fst := h ▸ hnd.1
      have hb := bumpAnalytics_of_not_mem cat s t hnm
      simp only [bumpAnalytics, List.map_cons] at hb ⊢
      rw [if_pos (by simpa using h)]
      rw [hb]
      simp only [sumCounts, sumSizes, List.map_cons, List.sum_cons]
      constructor <;> omega
    · have hmem' : cat ∈ t.map Prod.fst := by
        simp only [List.map_cons, List.mem_cons] at hmem
        rcases hmem with hh | hh
        · exact absurd hh.symm h
        · exact hh
      have hih := ih hmem' hnd.2
      simp only [bumpAnalytics, List.map_cons] at hih ⊢
      rw [if_neg (by simpa using h)]
      simp only [sumCounts, sumSizes, List.map_cons, List.sum_cons] at hih ⊢
      constructor <;> omega

theorem classifyLoop_mem_or (ext : String) :
    ∀ rules, classifyLoop ext rules = "Others" ∨
      classifyLoop ext rules ∈ rules.map Prod.fst := by
  intro rules
  induction rules with
  | nil => left; rfl
  | cons r t ih =>
    cases r with
    | mk a b =>
      simp only [classifyLoop]
      by_cases h : b.contains ext
      · rw [if_pos h]; right; simp
      · rw [if_neg h]
        rcases ih with hh | hh
        · left; exact hh
        · right; simp [hh]

theorem classify_mem_categoryNames (ext : String) :
    classify ext ∈ categoryNames := by
  rcases classifyLoop_mem_or ext FILE_TYPE_MAP with h | h
  · unfold classify
    rw [h]
    decide
  · exact h

theorem processItem_totals (env : Env) (dry : Bool) (st : RunState) (n : String)
    (hk : st.analytics.map Prod.fst = categoryNames)
    (hc : sumCounts st.analytics = st.sizes.length)
    (hs : sumSizes st.analytics = st.sizes.sum) :
    (processItem env dry st n).analytics.map Prod.fst = categoryNames ∧
    sumCounts (processItem env dry st n).analytics =
      (processItem env dry st n).sizes.length ∧
    sumSizes (processItem env dry st n).analytics =
      (processItem env dry st n).sizes.sum := by
  rcases processItem_analytics_sizes env dry st n with ⟨ha, hz⟩ | ⟨c, ha, hz⟩
  · rw [ha, hz]; exact ⟨hk, hc, hs⟩
  · have hmem : classify (extLower n) ∈ st.analytics.map Prod.fst := by
      rw [hk]; exact classify_mem_categoryNames _
    have hnd : (st.analytics.map Prod.fst).Nodup := by
      rw [hk]; decide
    have hb := bumpAnalytics_sums (classify (extLower n)) c.length st.analytics hmem hnd
    rw [ha, hz]
    refine ⟨(bumpAnalytics_keys _ _ _).trans hk, ?_, ?_⟩
    · rw [hb.1, hc]; simp
    · rw [hb.2, hs]; simp

theorem foldl_totals (env : Env) (dry : Bool) :
    ∀ (l : List String) (st : RunState),
      st.analytics.map Prod.fst = categoryNames →
      sumCounts st.analytics = st.sizes.length →
      sumSizes st.analytics = st.sizes.sum →
      (l.foldl (processItem env dry) st).analytics.map Prod.fst = categoryNames ∧
      sumCounts (l.foldl (processItem env dry) st).analytics =
        (l.foldl (processItem env dry) st).sizes.length ∧
      sumSizes (l.foldl (processItem env dry) st).analytics =
        (l.foldl (processItem env dry) st).sizes.sum := by
  intro l
  induction l with
  | nil => intro st h1 h2 h3; exact ⟨h1, h2, h3⟩
  | cons a t ih =>
    intro st h1 h2 h3
    rw [List.foldl_cons]
    have hstep := processItem_totals env dry st a h1 h2 h3
    exact ih _ hstep.1 hstep.2.1 hstep.2.2

/-- Claim C9: after every run, dry or not, the per-category counts of
the snapshot sum to the length of the flat size list and the
per-category sizes sum to the total of that list: every analyzed file is
counted in exactly one category and contributes its size exactly once. -/
theorem analytics_totals_match_size_list (env : Env) (fs : FS) (dry : Bool)
    (prev : List (Path × Path)) :
    sumCounts (organize_directory env fs dry prev).analytics =
      (organize_directory env fs dry prev).sizes.length ∧
    sumSizes (organize_directory env fs dry prev).analytics =
      (organize_directory env fs dry prev).sizes.sum := by
  unfold organize_directory
  by_cases h : env.listFails
  · simp [h]
    decide
  · simp only [h, Bool.false_eq_true, if_false]
    generalize (if dry = true then prev else ([] : List (Path × Path))) = acts0
    have hfold := foldl_totals env dry (listdir fs)
      { fs := fs, analytics := zeroAnalytics, sizes := [], processed := 0,
        actions := acts0, events := [Event.start] }
      (show zeroAnalytics.map Prod.fst = categoryNames from by decide)
      (show sumCounts zeroAnalytics = ([] : List Nat).length from by decide)
      (show sumSizes zeroAnalytics = ([] : List Nat).sum from by decide)
    repeat' split
    all_goals simpa using ⟨hfold.2.1, hfold.2.2⟩

theorem find?_map_nameKeep {α β : Type} (f : String × α → String × β)
    (hf : ∀ e, (f e).1 = e.1) (m : String) :
    ∀ (l : List (String × α)),
      (l.map f).find? (fun e => e.1 == m) =
        (l.find? (fun e => e.1 == m)).map f := by
  intro l
  induction l with
  | nil => rfl
  | cons e t ih =>
    simp only [List.map_cons, List.find?_cons, hf e]
    cases h : (e.1 == m) <;> simp [ih]

theorem find?_eraseP_ne {α : Type} (n m : String) (h : (m == n) = false) :
    ∀ (l : List (String × α)),
      (l.eraseP (fun e => e.1 == n)).find? (fun e => e.1 == m) =
        l.find? (fun e => e.1 == m) := by
  intro l
  induction l with
  | nil => rfl
  | cons e t ih =>
    by_cases he : ((fun (x : String × α) => x.1 == n) e) = true
    · have h1 : (e :: t).eraseP (fun x : String × α => x.1 == n) = t :=
        List.eraseP_cons_of_pos he
      rw [h1, List.find?_cons]
      have hme : (e.1 == m) = false := by
        have hen : e.1 = n := eq_of_beq he
        have hmn : ¬ (m = n) := by simpa using h
        rw [hen]
        exact beq_eq_false_iff_ne.mpr (fun hh => hmn hh.symm)
      rw [hme]
    · have h1 : (e :: t).eraseP (fun x : String × α => x.1 == n) =
          e :: t.eraseP (fun x : String × α => x.1 == n) :=
        List.eraseP_cons_of_neg he
      rw [h1, List.find?_cons, List.find?_cons]
      cases hm : (e.1 == m) <;> simp [ih]

theorem find?_name_of_nodup {α : Type} (n : String) (x : α) :
    ∀ (l : List (String × α)), (l.map Prod.fst).Nodup → (n, x) ∈ l →
      l.find? (fun e => e.1 == n) = some (n, x) := by
  intro l
  induction l with
  | nil => intro _ hm; simp at hm
  | cons e t ih =>
    intro hnd hm
    simp only [List.map_cons, List.nodup_cons] at hnd
    rcases List.mem_cons.mp hm with rfl | hmt
    · rw [List.find?_cons]
      simp
    · have hne : (e.1 == n) = false := by
        have : n ∈ t.map Prod.fst := List.mem_map_of_mem Prod.fst hmt
        have : e.1 ≠ n := fun hh => hnd.1 (hh ▸ this)
        simpa using this
      rw [List.find?_cons, hne]
      exact ih hnd.2 hmt

theorem rootFind_none_iff (fs : FS) (m : String) :
    rootFind fs m = none ↔ fs.root.find? (fun e => e.1 == m) = none := by
  unfold rootFind
  cases h : fs.root.find? (fun e => e.1 == m) <;> simp

theorem rootFind_some_elim (fs : FS) (m : String) (e : Entry)
    (h : rootFind fs m = some e) :
    ∃ nm, fs.root.find? (fun x => x.1 == m) = some (nm, e) ∧ (nm == m) = true := by
  unfold rootFind at h
  cases hf : fs.root.find? (fun x => x.1 == m) with
  | none => rw [hf] at h; cases h
  | some p =>
    rw [hf] at h
    cases h
    refine ⟨p.1, ?_, by simpa using List.find?_some hf⟩
    rfl

theorem rootFind_append_left (l1 l2 : List (String × Entry)) (m : String)
    (e : Entry) (h : rootFind ⟨l1⟩ m = some e) :
    rootFind ⟨l1 ++ l2⟩ m = some e := by
  rcases rootFind_some_elim ⟨l1⟩ m e h with ⟨nm, hf, _⟩
  unfold rootFind at *
  rw [List.find?_append, hf]
  rfl

theorem rootFind_ensureDir_of_some (fs : FS) (cat n : String) (e : Entry)
    (h : rootFind fs n = some e) :
    rootFind (ensureDir fs cat) n = some e := by
  unfold ensureDir
  cases hc : rootFind fs cat with
  | none => exact rootFind_append_left fs.root [(cat, Entry.dir [])] n e h
  | some x => exact h

theorem mem_overwrite (fls : List (String × Content)) (n : String) (c : Content) :
    (n, c) ∈ (if fls.any (fun f => f.1 == n)
              then fls.map (fun f => if f.1 == n then (n, c) else f)
              else fls ++ [(n, c)]) := by
  split
  · rename_i hany
    rcases List.any_eq_true.mp hany with ⟨f, hf, hfn⟩
    refine List.mem_map.mpr ⟨f, hf, ?_⟩
    rw [if_pos (by simpa using hfn)]
  · simp

theorem rootFind_doMove_cat (fs1 : FS) (n cat : String) (c : Content)
    (fls : List (String × Content))
    (hcat : rootFind fs1 cat = some (Entry.dir fls))
    (hne : (cat == n) = false) :
    rootFind (doMove fs1 n cat c) cat =
      some (Entry.dir (if fls.any (fun f => f.1 == n)
                       then fls.map (fun f => if f.1 == n then (n, c) else f)
                       else fls ++ [(n, c)])) := by
  rcases rootFind_some_elim fs1 cat _ hcat with ⟨nm, hf, hnm⟩
  unfold doMove rootFind
  rw [find?_map_nameKeep _ (by
        intro e
        repeat' (first | rfl | split)) cat]
  rw [find?_eraseP_ne n cat hne]
  rw [hf]
  have hnc : nm = cat := eq_of_beq hnm
  subst hnc
  simp

theorem rootFind_ensureDir_cat_none (fs : FS) (cat : String)
    (h : rootFind fs cat = none) :
    rootFind (ensureDir fs cat) cat = some (Entry.dir []) := by
  unfold ensureDir
  rw [h]
  unfold rootFind
  rw [List.find?_append, (rootFind_none_iff fs cat).mp h]
  simp [List.find?]

theorem processItem_move_eq (env : Env) (st : RunState) (n : String) (c : Content)
    (h1 : RESERVED_NAMES.contains n = false)
    (h2 : rootFind st.fs n = some (Entry.file c))
    (h3 : env.sizeFails n = false)
    (h4 : ∀ c', rootFind st.fs (classify (extLower n)) ≠ some (Entry.file c')) :
    processItem env false st n =
      (match env.moveFails n with
       | some true =>
         { st with
           fs := ensureDir st.fs (classify (extLower n)),
           sizes := st.sizes ++ [c.length],
           analytics := bumpAnalytics st.analytics (classify (extLower n)) c.length,
           events := st.events ++ [Event.moveCollisionWarn n] }
       | some false =>
         { st with
           fs := ensureDir st.fs (classify (extLower n)),
           sizes := st.sizes ++ [c.length],
           analytics := bumpAnalytics st.analytics (classify (extLower n)) c.length,
           events := st.events ++ [Event.moveError n] }
       | none =>
         { st with
           fs := doMove (ensureDir st.fs (classify (extLower n))) n
             (classify (extLower n)) c,
           sizes := st.sizes ++ [c.length],
           analytics := bumpAnalytics st.analytics (classify (extLower n)) c.length,
           events := st.events ++ [Event.moved n (classify (extLower n))],
           actions := st.actions ++ [([classify (extLower n), n], [n])],
           processed := st.processed + 1 }) := by
  unfold processItem
  rw [h1]
  simp only [Bool.false_eq_true, if_false]
  rw [h2]
  dsimp only
  rw [h3]
  cases hcat : rootFind st.fs (classify (extLower n)) with
  | none =>
    simp only [Bool.false_eq_true, if_false]
  | some e =>
    cases e with
    | file cc => exact absurd hcat (h4 cc)
    | dir fls =>
      simp only [Bool.false_eq_true, if_false]

/-- Claim C2 (amended): during a non-dry run, a file whose move raises
`shutil.Error` is logged with a warning and skipped in place (no
MoveAction, count unchanged); any other move exception is logged as an
error and skipped in place; a move that proceeds appends a MoveAction
(destination, original source) and increments the count, placing the
file's content into the category folder even when a file of that name
already sat there (the existing destination file is silently
overwritten, not skipped). -/
theorem move_failure_and_success_handling (env : Env) (st : RunState)
    (n : String) (c : Content)
    (h1 : RESERVED_NAMES.contains n = false)
    (h2 : rootFind st.fs n = some (Entry.file c))
    (h3 : env.sizeFails n = false)
    (h4 : ∀ c', rootFind st.fs (classify (extLower n)) ≠ some (Entry.file c')) :
    (env.moveFails n = some true →
      (processItem env false st n).events = st.events ++ [Event.moveCollisionWarn n] ∧
      (processItem env false st n).actions = st.actions ∧
      (processItem env false st n).processed = st.processed ∧
      rootFind (processItem env false st n).fs n = some (Entry.file c)) ∧
    (env.moveFails n = some false →
      (processItem env false st n).events = st.events ++ [Event.moveError n] ∧
      (processItem env false st n).actions = st.actions ∧
      (processItem env false st n).processed = st.processed ∧
      rootFind (processItem env false st n).fs n = some (Entry.file c)) ∧
    (env.moveFails n = none →
      (processItem env false st n).actions =
        st.actions ++ [([classify (extLower n), n], [n])] ∧
      (processItem env false st n).processed = st.processed + 1 ∧
      (processItem env false st n).events =
        st.events ++ [Event.moved n (classify (extLower n))] ∧
      ∃ fls, rootFind (processItem env false st n).fs (classify (extLower n)) =
          some (Entry.dir fls) ∧ (n, c) ∈ fls) := by
  have heq := processItem_move_eq env st n c h1 h2 h3 h4
  have hne : ((classify (extLower n)) == n) = false := by
    by_contra hcontra
    have hb : ((classify (extLower n)) == n) = true := by
      cases hx : ((classify (extLower n)) == n)
      · exact absurd hx hcontra
      · rfl
    have : classify (extLower n) = n := eq_of_beq hb
    exact h4 c (by rw [this]; exact h2)
  refine ⟨fun hm => ?_, fun hm => ?_, fun hm => ?_⟩
  · rw [heq, hm]
    exact ⟨rfl, rfl, rfl, rootFind_ensureDir_of_some st.fs _ n _ h2⟩
  · rw [heq, hm]
    exact ⟨rfl, rfl, rfl, rootFind_ensureDir_of_some st.fs _ n _ h2⟩
  · rw [heq, hm]
    refine ⟨rfl, rfl, rfl, ?_⟩
    cases hcat : rootFind st.fs (classify (extLower n)) with
    | none =>
      have hens := rootFind_ensureDir_cat_none st.fs _ hcat
      exact ⟨_, rootFind_doMove_cat _ n _ c [] hens hne, mem_overwrite [] n c⟩
    | some e =>
      cases e with
      | file cc => exact absurd hcat (h4 cc)
      | dir fls =>
        have hens : rootFind (ensureDir st.fs (classify (extLower n)))
            (classify (extLower n)) = some (Entry.dir fls) := by
          unfold ensureDir
          rw [hcat]
          exact hcat
        exact ⟨_, rootFind_doMove_cat _ n _ c fls hens hne, mem_overwrite fls n c⟩


/-- Counterexample to claim C2 as stated: with `a.jpg` at the top level
and `Images/a.jpg` already existing, the destination path already exists
and yet the run emits no warning, does not skip the file, records the
MoveAction, increments the count, and silently overwrites the
pre-existing `Images/a.jpg`. -/
theorem collision_overwrite_counterexample :
    rootFind ⟨[("a.jpg", Entry.file [0]), ("Images", Entry.dir [("a.jpg", [1])])]⟩
        "Images" = some (Entry.dir [("a.jpg", [1])]) ∧
    (organize_directory benignEnv
        ⟨[("a.jpg", Entry.file [0]), ("Images", Entry.dir [("a.jpg", [1])])]⟩
        false []).events =
      [Event.start, Event.moved "a.jpg" "Images", Event.skipDir "Images",
       Event.complete] ∧
    (organize_directory benignEnv
        ⟨[("a.jpg", Entry.file [0]), ("Images", Entry.dir [("a.jpg", [1])])]⟩
        false []).actions = [(["Images", "a.jpg"], ["a.jpg"])] ∧
    (organize_directory benignEnv
        ⟨[("a.jpg", Entry.file [0]), ("Images", Entry.dir [("a.jpg", [1])])]⟩
        false []).processed = 1 ∧
    rootFind (organize_directory benignEnv
        ⟨[("a.jpg", Entry.file [0]), ("Images", Entry.dir [("a.jpg", [1])])]⟩
        false []).fs "a.jpg" = none ∧
    rootFind (organize_directory benignEnv
        ⟨[("a.jpg", Entry.file [0]), ("Images", Entry.dir [("a.jpg", [1])])]⟩
        false []).fs "Images" = some (Entry.dir [("a.jpg", [0])]) := by
  decide

theorem move_failure_and_success_handling_witness :
    RESERVED_NAMES.contains "a.jpg" = false ∧
    rootFind ⟨[("a.jpg", Entry.file [0])]⟩ "a.jpg" = some (Entry.file [0]) ∧
    ((processItem benignEnv false { fs := ⟨[("a.jpg", Entry.file [0])]⟩, analytics := zeroAnalytics, sizes := [], processed := 0, actions := [], events := [Event.start] } "a.jpg").actions =
        [] ++ [([classify (extLower "a.jpg"), "a.jpg"], ["a.jpg"])] ∧
      (processItem benignEnv false { fs := ⟨[("a.jpg", Entry.file [0])]⟩, analytics := zeroAnalytics, sizes := [], processed := 0, actions := [], events := [Event.start] } "a.jpg").processed = 0 + 1 ∧
      (processItem benignEnv false { fs := ⟨[("a.jpg", Entry.file [0])]⟩, analytics := zeroAnalytics, sizes := [], processed := 0, actions := [], events := [Event.start] } "a.jpg").events =
        [Event.start] ++ [Event.moved "a.jpg" (classify (extLower "a.jpg"))] ∧
      ∃ fls, rootFind (processItem benignEnv false { fs := ⟨[("a.jpg", Entry.file [0])]⟩, analytics := zeroAnalytics, sizes := [], processed := 0, actions := [], events := [Event.start] } "a.jpg").fs (classify (extLower "a.jpg")) =
          some (Entry.dir fls) ∧ ("a.jpg", ([0] : Content)) ∈ fls) :=
  ⟨by decide, by decide,
   (move_failure_and_success_handling benignEnv
     { fs := ⟨[("a.jpg", Entry.file [0])]⟩, analytics := zeroAnalytics, sizes := [], processed := 0, actions := [], events := [Event.start] } "a.jpg" [0]
     (by decide) (by decide) rfl
     (by
       intro cc hc
       dsimp only at hc
       rw [(by decide : rootFind ⟨[("a.jpg", Entry.file [0])]⟩
         (classify (extLower "a.jpg")) = none)] at hc
       cases hc)).2.2 rfl⟩

theorem organize_completes (env : Env) (fs : FS) (dry : Bool)
    (prev : List (Path × Path)) (h : env.listFails = false) :
    (organize_directory env fs dry prev).events.getLast? = some Event.complete := by
  unfold organize_directory
  simp only [h, Bool.false_eq_true, if_false]
  repeat' split
  all_goals simp [List.getLast?_concat]

theorem size_failure_step (env : Env) (dry : Bool) (st : RunState)
    (n : String) (c : Content)
    (h1 : RESERVED_NAMES.contains n = false)
    (h2 : rootFind st.fs n = some (Entry.file c))
    (h3 : env.sizeFails n = true) :
    processItem env dry st n =
      { st with events := st.events ++ [Event.analyzeWarn n] } := by
  unfold processItem
  rw [h1]
  simp only [Bool.false_eq_true, if_false]
  rw [h2]
  simp [h3]

/-- Claim C6: an entry whose size retrieval raises is logged with a
warning and contributes nothing to the snapshot, the size list, the
action log or the count, and leaves the directory untouched; processing
of the remaining entries continues and every run with a successful
listing still ends with its completion message. -/
theorem size_failure_warns_and_excludes (env : Env) (dry : Bool) (st : RunState)
    (n : String) (c : Content)
    (h1 : RESERVED_NAMES.contains n = false)
    (h2 : rootFind st.fs n = some (Entry.file c))
    (h3 : env.sizeFails n = true) :
    processItem env dry st n =
      { st with events := st.events ++ [Event.analyzeWarn n] } ∧
    (Event.analyzeWarn n).sev = Sev.warning ∧
    ∀ (env' : Env) (fs : FS) (dry' : Bool) (prev : List (Path × Path)),
      env'.listFails = false →
      (organize_directory env' fs dry' prev).events.getLast? = some Event.complete :=
  ⟨size_failure_step env dry st n c h1 h2 h3, rfl,
   fun env' fs dry' prev h => organize_completes env' fs dry' prev h⟩

/-- Witness for claim C6: a file whose `getsize` fails is only logged,
everything else in the run state is unchanged. -/
theorem size_failure_warns_and_excludes_witness :
    RESERVED_NAMES.contains "locked.bin" = false ∧
    rootFind ⟨[("locked.bin", Entry.file [0])]⟩ "locked.bin" =
      some (Entry.file [0]) ∧
    (processItem
        { listFails := false, sizeFails := fun m => m == "locked.bin",
          moveFails := fun _ => none } false
        { fs := ⟨[("locked.bin", Entry.file [0])]⟩, analytics := zeroAnalytics,
          sizes := [], processed := 0, actions := [], events := [Event.start] }
        "locked.bin" =
      { fs := ⟨[("locked.bin", Entry.file [0])]⟩, analytics := zeroAnalytics,
        sizes := [], processed := 0, actions := [],
        events := [Event.start, Event.analyzeWarn "locked.bin"] }) ∧
    (organize_directory benignEnv ⟨[]⟩ false []).events.getLast? =
      some Event.complete := by
  refine ⟨by decide, by decide, ?_, ?_⟩
  · exact (size_failure_warns_and_excludes
      { listFails := false, sizeFails := fun m => m == "locked.bin",
        moveFails := fun _ => none } false
      { fs := ⟨[("locked.bin", Entry.file [0])]⟩, analytics := zeroAnalytics,
        sizes := [], processed := 0, actions := [], events := [Event.start] }
      "locked.bin" [0] (by decide) (by decide) (by decide)).1
  · exact (size_failure_warns_and_excludes
      { listFails := false, sizeFails := fun m => m == "locked.bin",
        moveFails := fun _ => none } false
      { fs := ⟨[("locked.bin", Entry.file [0])]⟩, analytics := zeroAnalytics,
        sizes := [], processed := 0, actions := [], events := [Event.start] }
      "locked.bin" [0] (by decide) (by decide) (by decide)).2.2
      benignEnv ⟨[]⟩ false [] rfl

/-- Claim C7 (amended): when the initial listing fails the run reports a
single top-level error, returns the all-zero snapshot with an empty size
list and zero processed count, emits no other message after the start
message, and leaves the directory unchanged; no new MoveAction is
recorded, but a non-dry run has already cleared the previous action log
before listing, so the prior undo log is lost rather than unchanged. -/
theorem listing_failure_characterization (env : Env) (fs : FS) (dry : Bool)
    (prev : List (Path × Path)) (h : env.listFails = true) :
    organize_directory env fs dry prev =
      { fs := fs, analytics := zeroAnalytics, sizes := [], processed := 0,
        actions := if dry then prev else [],
        events := [Event.start, Event.topError] } ∧
    ((Event.start).sev = Sev.info ∧ (Event.topError).sev = Sev.error) := by
  constructor
  · unfold organize_directory
    simp [h]
  · exact ⟨rfl, rfl⟩

/-- Counterexample to claim C7 as stated: a failing non-dry run does not
leave the action log unchanged — it has already cleared the prior log. -/
theorem listing_failure_clears_log_counterexample :
    (organize_directory
        { listFails := true, sizeFails := fun _ => false, moveFails := fun _ => none }
        ⟨[]⟩ false [(["Images", "a.jpg"], ["a.jpg"])]).actions ≠
      [(["Images", "a.jpg"], ["a.jpg"])] := by
  decide

/-- Witness for claim C7 at a concrete failing listing. -/
theorem listing_failure_characterization_witness :
    ({ listFails := true, sizeFails := fun _ => false,
       moveFails := fun _ => none : Env }).listFails = true ∧
    organize_directory
        { listFails := true, sizeFails := fun _ => false, moveFails := fun _ => none }
        ⟨[("a.txt", Entry.file [0])]⟩ true [(["Images", "b.jpg"], ["b.jpg"])] =
      { fs := ⟨[("a.txt", Entry.file [0])]⟩, analytics := zeroAnalytics, sizes := [],
        processed := 0, actions := [(["Images", "b.jpg"], ["b.jpg"])],
        events := [Event.start, Event.topError] } :=
  ⟨rfl, by
    have hh := (listing_failure_characterization
      { listFails := true, sizeFails := fun _ => false, moveFails := fun _ => none }
      ⟨[("a.txt", Entry.file [0])]⟩ true [(["Images", "b.jpg"], ["b.jpg"])] rfl).1
    simpa using hh⟩

theorem rootFind_doMove_other (fs1 : FS) (n cat m : String) (c : Content)
    (hm : (m == n) = false) (hc : (m == cat) = false) :
    rootFind (doMove fs1 n cat c) m = rootFind fs1 m := by
  unfold doMove rootFind
  rw [find?_map_nameKeep _ (by
        intro e
        repeat' (first | rfl | split)) m]
  rw [find?_eraseP_ne n m hm]
  cases hf : fs1.root.find? (fun e => e.1 == m) with
  | none => rfl
  | some p =>
    have hpm : p.1 = m := eq_of_beq (by simpa using List.find?_some hf)
    have hpc : ¬ p.1 = cat := by
      rw [hpm]; simpa using hc
    simp [hpc]

theorem processItem_dir_step (env : Env) (dry : Bool) (st : RunState)
    (m : String) (flsm : List (String × Content))
    (h1 : RESERVED_NAMES.contains m = false)
    (h2 : rootFind st.fs m = some (Entry.dir flsm)) :
    processItem env dry st m = { st with events := st.events ++ [Event.skipDir m] } := by
  unfold processItem
  rw [h1]
  simp only [Bool.false_eq_true, if_false]
  rw [h2]

theorem processItem_file_analytics (env : Env) (dry : Bool) (st : RunState)
    (m : String) (c : Content)
    (h1 : RESERVED_NAMES.contains m = false)
    (h2 : rootFind st.fs m = some (Entry.file c))
    (h3 : env.sizeFails m = false) :
    (processItem env dry st m).analytics =
      bumpAnalytics st.analytics (classify (extLower m)) c.length ∧
    (processItem env dry st m).sizes = st.sizes ++ [c.length] := by
  unfold processItem
  rw [h1]
  simp only [Bool.false_eq_true, if_false]
  rw [h2]
  dsimp only
  rw [h3]
  simp only [Bool.false_eq_true, if_false]
  repeat' split
  all_goals exact ⟨rfl, rfl⟩

theorem processItem_wet_file_fs (env : Env) (st : RunState)
    (m : String) (c : Content)
    (h1 : RESERVED_NAMES.contains m = false)
    (h2 : rootFind st.fs m = some (Entry.file c))
    (h3 : env.sizeFails m = false) :
    (processItem env false st m).fs = st.fs ∨
    (processItem env false st m).fs = ensureDir st.fs (classify (extLower m)) ∨
    ((processItem env false st m).fs =
        doMove (ensureDir st.fs (classify (extLower m))) m
          (classify (extLower m)) c ∧
      ∀ c', rootFind st.fs (classify (extLower m)) ≠ some (Entry.file c')) := by
  unfold processItem
  rw [h1]
  simp only [Bool.false_eq_true, if_false]
  rw [h2]
  dsimp only
  rw [h3]
  simp only [Bool.false_eq_true, if_false]
  cases hcat : rootFind st.fs (classify (extLower m)) with
  | none =>
    cases hmv : env.moveFails m with
    | none =>
      right; right
      exact ⟨rfl, by intro c' hcc; simp at hcc⟩
    | some b => cases b <;> (right; left; rfl)
  | some e =>
    cases e with
    | file cc => left; rfl
    | dir fls =>
      cases hmv : env.moveFails m with
      | none =>
        right; right
        exact ⟨rfl, by intro c' hcc; simp at hcc⟩
      | some b => cases b <;> (right; left; rfl)

theorem listdir_mem_found (fs : FS) (m : String) (h : m ∈ listdir fs) :
    rootFind fs m ≠ none := by
  intro hn
  rw [rootFind_none_iff] at hn
  rw [List.find?_eq_none] at hn
  rcases List.mem_map.mp h with ⟨e, he, hem⟩
  exact absurd (by simpa using hem) (by simpa using hn e he)

theorem dryWet_fold (env : Env) :
    ∀ (rem : List String) (stD stW : RunState),
      rem.Nodup →
      stD.analytics = stW.analytics →
      stD.sizes = stW.sizes →
      (∀ m ∈ rem,
        (rootFind stW.fs m = rootFind stD.fs m ∧ rootFind stD.fs m ≠ none) ∨
        (∃ flsW flsD, rootFind stW.fs m = some (Entry.dir flsW) ∧
          rootFind stD.fs m = some (Entry.dir flsD))) →
      (rem.foldl (processItem env true) stD).analytics =
        (rem.foldl (processItem env false) stW).analytics ∧
      (rem.foldl (processItem env true) stD).sizes =
        (rem.foldl (processItem env false) stW).sizes := by
  intro rem
  induction rem with
  | nil => intro stD stW _ ha hs _; exact ⟨ha, hs⟩
  | cons m rest ih =>
    intro stD stW hnd ha hs hinv
    rw [List.foldl_cons, List.foldl_cons]
    have hndr : rest.Nodup := (List.nodup_cons.mp hnd).2
    have hmni : m ∉ rest := (List.nodup_cons.mp hnd).1
    have htail : ∀ m' ∈ rest, m' ≠ m := fun m' hm' he => hmni (he ▸ hm')
    by_cases hres : RESERVED_NAMES.contains m
    · have hD : processItem env true stD m = stD := by
        unfold processItem; rw [if_pos hres]
      have hW : processItem env false stW m = stW := by
        unfold processItem; rw [if_pos hres]
      rw [hD, hW]
      exact ih stD stW hndr ha hs (fun m' hm' => hinv m' (List.mem_cons_of_mem m hm'))
    · have hres' : RESERVED_NAMES.contains m = false := by simpa using hres
      have hdfs : (processItem env true stD m).fs = stD.fs := processItem_dry_fs env stD m
      rcases hinv m (List.mem_cons_self m rest) with ⟨hag, hsome⟩ | ⟨flsW, flsD, hWd, hDd⟩
      · cases hDv : rootFind stD.fs m with
        | none => exact absurd hDv hsome
        | some v =>
          have hWv : rootFind stW.fs m = some v := by rw [hag, hDv]
          cases v with
          | dir fls =>
            have hDe := processItem_dir_step env true stD m fls hres' hDv
            have hWe := processItem_dir_step env false stW m fls hres' hWv
            rw [hDe, hWe]
            exact ih _ _ hndr (by simpa using ha) (by simpa using hs)
              (fun m' hm' => by simpa using hinv m' (List.mem_cons_of_mem m hm'))
          | file c =>
            by_cases hsz : env.sizeFails m
            · have hDe := size_failure_step env true stD m c hres' hDv hsz
              have hWe := size_failure_step env false stW m c hres' hWv hsz
              rw [hDe, hWe]
              exact ih _ _ hndr (by simpa using ha) (by simpa using hs)
                (fun m' hm' => by simpa using hinv m' (List.mem_cons_of_mem m hm'))
            · have hsz' : env.sizeFails m = false := by simpa using hsz
              have hDa := processItem_file_analytics env true stD m c hres' hDv hsz'
              have hWa := processItem_file_analytics env false stW m c hres' hWv hsz'
              refine ih _ _ hndr ?_ ?_ ?_
              · rw [hDa.1, hWa.1, ha]
              · rw [hDa.2, hWa.2, hs]
              · intro m' hm'
                have hm'm : (m' == m) = false := by
                  simpa using htail m' hm'
                have hprev := hinv m' (List.mem_cons_of_mem m hm')
                rw [hdfs]
                rcases processItem_wet_file_fs env stW m c hres' hWv hsz'
                  with hfs | hfs | ⟨hfs, hnofile⟩
                · rw [hfs]; exact hprev
                · rw [hfs]
                  rcases hprev with ⟨hag', hsome'⟩ | ⟨fW, fD, hW', hD'⟩
                  · cases hx : rootFind stD.fs m' with
                    | none => exact absurd hx hsome'
                    | some x =>
                      have hwx : rootFind stW.fs m' = some x := by rw [hag', hx]
                      exact Or.inl
                        ⟨rootFind_ensureDir_of_some stW.fs _ m' x hwx, by simp⟩
                  · exact Or.inr ⟨fW, fD,
                      rootFind_ensureDir_of_some stW.fs _ m' _ hW', hD'⟩
                · have hcatm : ((classify (extLower m)) == m) = false := by
                    by_contra hcc
                    have hb : ((classify (extLower m)) == m) = true := by
                      cases hx : ((classify (extLower m)) == m)
                      · exact absurd hx hcc
                      · rfl
                    have he : classify (extLower m) = m := eq_of_beq hb
                    exact hnofile c (by rw [he]; exact hWv)
                  by_cases hmc : m' = classify (extLower m)
                  · subst hmc
                    right
                    have hfls1 : ∃ fls1,
                        rootFind (ensureDir stW.fs (classify (extLower m)))
                          (classify (extLower m)) = some (Entry.dir fls1) := by
                      cases hcw : rootFind stW.fs (classify (extLower m)) with
                      | none =>
                        exact ⟨[], rootFind_ensureDir_cat_none stW.fs _ hcw⟩
                      | some y =>
                        cases y with
                        | file cc => exact absurd hcw (hnofile cc)
                        | dir fy =>
                          refine ⟨fy, ?_⟩
                          unfold ensureDir
                          rw [hcw]
                          exact hcw
                    rcases hfls1 with ⟨fls1, hfls1⟩
                    have hwcat := rootFind_doMove_cat _ m _ c fls1 hfls1 hcatm
                    have hDdir : ∃ fD, rootFind stD.fs (classify (extLower m)) =
                        some (Entry.dir fD) := by
                      rcases hprev with ⟨hag', hsome'⟩ | ⟨fW, fD, hW', hD'⟩
                      · cases hx : rootFind stD.fs (classify (extLower m)) with
                        | none => exact absurd hx hsome'
                        | some y =>
                          cases y with
                          | file cc =>
                            have hzz : rootFind stW.fs (classify (extLower m)) =
                                some (Entry.file cc) := by rw [hag', hx]
                            exact absurd hzz (hnofile cc)
                          | dir fy => exact ⟨fy, rfl⟩
                      · exact ⟨fD, hD'⟩
                    rcases hDdir with ⟨fD, hDdir⟩
                    rw [hfs]
                    exact ⟨_, fD, hwcat, hDdir⟩
                  · have hm'c : (m' == classify (extLower m)) = false := by
                      simpa using hmc
                    rw [hfs]
                    have hother := rootFind_doMove_other
                      (ensureDir stW.fs (classify (extLower m))) m
                      (classify (extLower m)) m' c hm'm hm'c
                    rw [hother]
                    rcases hprev with ⟨hag', hsome'⟩ | ⟨fW, fD, hW', hD'⟩
                    · cases hx : rootFind stD.fs m' with
                      | none => exact absurd hx hsome'
                      | some x =>
                        have hwx : rootFind stW.fs m' = some x := by rw [hag', hx]
                        exact Or.inl
                          ⟨rootFind_ensureDir_of_some stW.fs _ m' x hwx, by simp⟩
                    · exact Or.inr ⟨fW, fD,
                        rootFind_ensureDir_of_some stW.fs _ m' _ hW', hD'⟩
      · have hDe := processItem_dir_step env true stD m flsD hres' hDd
        have hWe := processItem_dir_step env false stW m flsW hres' hWd
        rw [hDe, hWe]
        exact ih _ _ hndr (by simpa using ha) (by simpa using hs)
          (fun m' hm' => by simpa using hinv m' (List.mem_cons_of_mem m hm'))

theorem organize_dry_fs (env : Env) (fs : FS) (prev : List (Path × Path)) :
    (organize_directory env fs true prev).fs = fs := by
  unfold organize_directory
  by_cases hl : env.listFails
  · simp [hl]
  · simp only [hl, Bool.false_eq_true, if_false]
    repeat' split
    all_goals simpa using foldl_dry_fs env (listdir fs) _

/-- Claim C3: a dry run leaves the directory untouched, and the
analytics snapshot and flat size list it returns are exactly those a
non-dry run would have computed from the same initial state (under the
same injected OS outcomes). -/
theorem dry_run_matches_real_snapshot (env : Env) (fs : FS)
    (prevD prevW : List (Path × Path)) (h : (listdir fs).Nodup) :
    (organize_directory env fs true prevD).fs = fs ∧
    (organize_directory env fs true prevD).analytics =
      (organize_directory env fs false prevW).analytics ∧
    (organize_directory env fs true prevD).sizes =
      (organize_directory env fs false prevW).sizes := by
  have hfold := dryWet_fold env (listdir fs)
      { fs := fs, analytics := zeroAnalytics, sizes := [], processed := 0,
        actions := prevD, events := [Event.start] }
      { fs := fs, analytics := zeroAnalytics, sizes := [], processed := 0,
        actions := [], events := [Event.start] }
      h rfl rfl
      (fun m hm => Or.inl ⟨rfl, listdir_mem_found fs m hm⟩)
  refine ⟨organize_dry_fs env fs prevD, ?_, ?_⟩
  · unfold organize_directory
    by_cases hl : env.listFails
    · simp [hl]
    · simp only [hl, Bool.false_eq_true, if_false]
      repeat' split
      all_goals first
        | simpa using hfold.1
        | simp_all
  · unfold organize_directory
    by_cases hl : env.listFails
    · simp [hl]
    · simp only [hl, Bool.false_eq_true, if_false]
      repeat' split
      all_goals first
        | simpa using hfold.2
        | simp_all

/-- Witness for claim C3 on a concrete two-file directory. -/
theorem dry_run_matches_real_snapshot_witness :
    (listdir ⟨[("a.txt", Entry.file [0]), ("b.unknown", Entry.file [1, 2])]⟩).Nodup ∧
    ((organize_directory benignEnv
        ⟨[("a.txt", Entry.file [0]), ("b.unknown", Entry.file [1, 2])]⟩ true
        [(["Images", "old.jpg"], ["old.jpg"])]).fs =
      ⟨[("a.txt", Entry.file [0]), ("b.unknown", Entry.file [1, 2])]⟩ ∧
    (organize_directory benignEnv
        ⟨[("a.txt", Entry.file [0]), ("b.unknown", Entry.file [1, 2])]⟩ true
        [(["Images", "old.jpg"], ["old.jpg"])]).analytics =
      (organize_directory benignEnv
        ⟨[("a.txt", Entry.file [0]), ("b.unknown", Entry.file [1, 2])]⟩ false []).analytics ∧
    (organize_directory benignEnv
        ⟨[("a.txt", Entry.file [0]), ("b.unknown", Entry.file [1, 2])]⟩ true
        [(["Images", "old.jpg"], ["old.jpg"])]).sizes =
      (organize_directory benignEnv
        ⟨[("a.txt", Entry.file [0]), ("b.unknown", Entry.file [1, 2])]⟩ false []).sizes) :=
  ⟨by decide,
   dry_run_matches_real_snapshot benignEnv
     ⟨[("a.txt", Entry.file [0]), ("b.unknown", Entry.file [1, 2])]⟩
     [(["Images", "old.jpg"], ["old.jpg"])] [] (by decide)⟩

theorem processItem_absent_step (env : Env) (dry : Bool) (st : RunState)
    (n : String)
    (h1 : RESERVED_NAMES.contains n = false)
    (h2 : rootFind st.fs n = none) :
    processItem env dry st n =
      { st with events := st.events ++ [Event.analyzeWarn n] } := by
  unfold processItem
  rw [h1]
  simp only [Bool.false_eq_true, if_false]
  rw [h2]

theorem names_doMove (fs1 : FS) (n cat : String) (c : Content) :
    (doMove fs1 n cat c).root.map Prod.fst =
      (fs1.root.eraseP (fun e => e.1 == n)).map Prod.fst := by
  unfold doMove
  rw [List.map_map]
  apply List.map_congr_left
  intro e _
  simp only [Function.comp_apply]
  repeat' (first | rfl | split)

theorem mem_doMove_elim (fs1 : FS) (n cat : String) (c : Content) :
    ∀ e ∈ (doMove fs1 n cat c).root, ∃ e0, e0 ∈ fs1.root ∧ e.1 = e0.1 ∧
      e.2.isADir = e0.2.isADir := by
  intro e he
  unfold doMove at he
  rcases List.mem_map.mp he with ⟨e0, he0, heq⟩
  have he0' : e0 ∈ fs1.root := (List.eraseP_sublist fs1.root).mem he0
  refine ⟨e0, he0', ?_⟩
  subst heq
  refine ⟨?_, ?_⟩
  · repeat' (first | rfl | split)
  · repeat' split
    all_goals (first | rfl | simp_all [Entry.isADir])

theorem not_mem_map_fst_eraseP {α : Type} (n : String) :
    ∀ (l : List (String × α)), (l.map Prod.fst).Nodup →
      n ∉ ((l.eraseP (fun e => e.1 == n)).map Prod.fst) := by
  intro l
  induction l with
  | nil => intro _; simp
  | cons e t ih =>
    intro hnd
    simp only [List.map_cons, List.nodup_cons] at hnd
    by_cases he : ((fun (x : String × α) => x.1 == n) e) = true
    · have h1 : (e :: t).eraseP (fun x : String × α => x.1 == n) = t :=
        List.eraseP_cons_of_pos he
      rw [h1]
      have hen : e.1 = n := eq_of_beq he
      rw [← hen]
      exact hnd.1
    · have h1 : (e :: t).eraseP (fun x : String × α => x.1 == n) =
          e :: t.eraseP (fun x : String × α => x.1 == n) :=
        List.eraseP_cons_of_neg he
      rw [h1]
      simp only [List.map_cons, List.mem_cons]
      push_neg
      constructor
      · exact fun hne => he (beq_iff_eq.mpr hne.symm)
      · exact ih hnd.2

theorem mem_ensureDir_elim (fs : FS) (cat : String) :
    ∀ e ∈ (ensureDir fs cat).root, e ∈ fs.root ∨ e = (cat, Entry.dir []) := by
  intro e he
  unfold ensureDir at he
  cases hc : rootFind fs cat with
  | none =>
    rw [hc] at he
    rcases List.mem_append.mp he with h | h
    · exact Or.inl h
    · simp at h
      right
      exact h
  | some x =>
    rw [hc] at he
    exact Or.inl he

theorem names_nodup_ensureDir (fs : FS) (cat : String)
    (hnd : (fs.root.map Prod.fst).Nodup) :
    ((ensureDir fs cat).root.map Prod.fst).Nodup := by
  unfold ensureDir
  cases hc : rootFind fs cat with
  | none =>
    have hcm : cat ∉ fs.root.map Prod.fst := by
      intro hm
      rcases List.mem_map.mp hm with ⟨e, he, hem⟩
      have := (rootFind_none_iff fs cat).mp hc
      rw [List.find?_eq_none] at this
      exact absurd (by simpa using hem) (by simpa using this e he)
    rw [List.map_append]
    simp only [List.map_cons, List.map_nil]
    rw [List.nodup_append]
    refine ⟨hnd, by simp, ?_⟩
    intro x hx
    simp only [List.mem_singleton]
    intro hxc
    exact hcm (hxc ▸ hx)
  | some x => exact hnd

theorem rootFind_not_mem_names (fs : FS) (cat : String)
    (hc : rootFind fs cat = none) : cat ∉ fs.root.map Prod.fst := by
  intro hm
  rcases List.mem_map.mp hm with ⟨e, he, hem⟩
  have hfn := (rootFind_none_iff fs cat).mp hc
  rw [List.find?_eq_none] at hfn
  exact absurd (by simpa using hem) (by simpa using hfn e he)

theorem benign_fold_settles (env : Env)
    (hbs : ∀ s, env.sizeFails s = false) (hbm : ∀ s, env.moveFails s = none) :
    ∀ (rem : List String) (st : RunState),
      (st.fs.root.map Prod.fst).Nodup →
      (∀ e ∈ st.fs.root, e.2.isADir = true ∨ e.1 ∉ categoryNames) →
      (∀ e ∈ st.fs.root, e.2.isADir = true ∨ e.1 ∈ RESERVED_NAMES ∨ e.1 ∈ rem) →
      ((rem.foldl (processItem env false) st).fs.root.map Prod.fst).Nodup ∧
      (∀ e ∈ (rem.foldl (processItem env false) st).fs.root,
        e.2.isADir = true ∨ e.1 ∉ categoryNames) ∧
      (∀ e ∈ (rem.foldl (processItem env false) st).fs.root,
        e.2.isADir = true ∨ e.1 ∈ RESERVED_NAMES) := by
  intro rem
  induction rem with
  | nil =>
    intro st h1 h2 h3
    exact ⟨h1, h2, fun e he => by
      rcases h3 e he with h | h | h
      · exact Or.inl h
      · exact Or.inr h
      · simp at h⟩
  | cons n rest ih =>
    intro st h1 h2 h3
    rw [List.foldl_cons]
    by_cases hres : RESERVED_NAMES.contains n
    · have hstep : processItem env false st n = st := by
        unfold processItem; rw [if_pos hres]
      rw [hstep]
      refine ih st h1 h2 ?_
      intro e he
      rcases h3 e he with h | h | h
      · exact Or.inl h
      · exact Or.inr (Or.inl h)
      · rcases List.mem_cons.mp h with rfl | hr
        · exact Or.inr (Or.inl (by simpa using hres))
        · exact Or.inr (Or.inr hr)
    · have hres' : RESERVED_NAMES.contains n = false := by simpa using hres
      cases hfind : rootFind st.fs n with
      | none =>
        have hstep := processItem_absent_step env false st n hres' hfind
        rw [hstep]
        have habsent : ∀ e ∈ st.fs.root, e.1 ≠ n := by
          intro e he hne
          have hfn := (rootFind_none_iff st.fs n).mp hfind
          rw [List.find?_eq_none] at hfn
          exact absurd (by simpa using hne) (by simpa using hfn e he)
        refine ih _ (by simpa using h1) (by simpa using h2) ?_
        intro e he
        simp only at he
        rcases h3 e he with h | h | h
        · exact Or.inl h
        · exact Or.inr (Or.inl h)
        · rcases List.mem_cons.mp h with rfl | hr
          · exact absurd rfl (habsent e he)
          · exact Or.inr (Or.inr hr)
      | some v =>
        cases v with
        | dir fls =>
          have hstep := processItem_dir_step env false st n fls hres' hfind
          rw [hstep]
          have huniq : ∀ e ∈ st.fs.root, e.1 = n → e.2 = Entry.dir fls := by
            intro e he hen
            have hf2 := find?_name_of_nodup n e.2 st.fs.root h1
              (by rw [← hen]; simpa using he)
            rcases rootFind_some_elim st.fs n _ hfind with ⟨nm, hf1, _⟩
            rw [hf1] at hf2
            have hp := Option.some.inj hf2
            have h22 := congrArg Prod.snd hp
            exact h22.symm
          refine ih _ (by simpa using h1) (by simpa using h2) ?_
          intro e he
          simp only at he
          rcases h3 e he with h | h | h
          · exact Or.inl h
          · exact Or.inr (Or.inl h)
          · rcases List.mem_cons.mp h with rfl | hr
            · exact Or.inl (by rw [huniq e he rfl]; rfl)
            · exact Or.inr (Or.inr hr)
        | file c =>
          have h4 : ∀ c', rootFind st.fs (classify (extLower n)) ≠
              some (Entry.file c') := by
            intro c' hcc
            rcases rootFind_some_elim st.fs _ _ hcc with ⟨nm, hf1, hnm⟩
            have hmem := List.mem_of_find?_eq_some hf1
            rcases h2 _ hmem with hd | hnc
            · simp [Entry.isADir] at hd
            · exact hnc (eq_of_beq hnm ▸ classify_mem_categoryNames (extLower n))
          have heq := processItem_move_eq env st n c hres' hfind (hbs n) h4
          rw [hbm n] at heq
          rw [heq]
          have hndE : ((ensureDir st.fs (classify (extLower n))).root.map
              Prod.fst).Nodup := names_nodup_ensureDir st.fs _ h1
          have hndD : ((doMove (ensureDir st.fs (classify (extLower n))) n
              (classify (extLower n)) c).root.map Prod.fst).Nodup := by
            rw [names_doMove]
            exact ((List.eraseP_sublist _).map Prod.fst).nodup hndE
          have hmemE : ∀ e ∈ (ensureDir st.fs (classify (extLower n))).root,
              e ∈ st.fs.root ∨ e = (classify (extLower n), Entry.dir []) :=
            mem_ensureDir_elim st.fs _
          have hnotn : ∀ e ∈ (doMove (ensureDir st.fs (classify (extLower n))) n
              (classify (extLower n)) c).root, e.1 ≠ n := by
            intro e he hen
            have hnn := not_mem_map_fst_eraseP n
              (ensureDir st.fs (classify (extLower n))).root hndE
            apply hnn
            rw [← names_doMove (ensureDir st.fs (classify (extLower n))) n
              (classify (extLower n)) c]
            have hmm2 : e.1 ∈ (doMove (ensureDir st.fs (classify (extLower n))) n
                (classify (extLower n)) c).root.map Prod.fst :=
              List.mem_map_of_mem Prod.fst he
            rwa [hen] at hmm2
          refine ih _ hndD ?_ ?_
          · intro e he
            rcases mem_doMove_elim _ n _ c e he with ⟨e0, he0, hname, hdir⟩
            rcases hmemE e0 he0 with h | h
            · rcases h2 e0 h with hd | hnc
              · exact Or.inl (hdir ▸ hd)
              · exact Or.inr (hname ▸ hnc)
            · left
              rw [hdir, h]
              rfl
          · intro e he
            rcases mem_doMove_elim _ n _ c e he with ⟨e0, he0, hname, hdir⟩
            rcases hmemE e0 he0 with h | h
            · rcases h3 e0 h with hd | hr | hm
              · exact Or.inl (hdir ▸ hd)
              · exact Or.inr (Or.inl (hname ▸ hr))
              · rcases List.mem_cons.mp hm with heq0 | hrr
                · exact absurd (hname.trans heq0) (hnotn e he)
                · exact Or.inr (Or.inr (hname ▸ hrr))
            · left
              rw [hdir, h]
              rfl

theorem allDirs_fold (env : Env) :
    ∀ (l : List String) (st : RunState),
      (∀ n ∈ l, RESERVED_NAMES.contains n = true ∨
        ∃ fls, rootFind st.fs n = some (Entry.dir fls)) →
      (l.foldl (processItem env false) st).fs = st.fs ∧
      (l.foldl (processItem env false) st).processed = st.processed ∧
      ∃ evs, (l.foldl (processItem env false) st).events = st.events ++ evs ∧
        ∀ e ∈ evs, e.sev = Sev.info := by
  intro l
  induction l with
  | nil => intro st _; exact ⟨rfl, rfl, [], by simp, by simp⟩
  | cons n rest ih =>
    intro st hall
    rw [List.foldl_cons]
    rcases hall n (List.mem_cons_self n rest) with hres | ⟨fls, hdir⟩
    · have hstep : processItem env false st n = st := by
        unfold processItem; rw [if_pos hres]
      rw [hstep]
      exact ih st (fun m hm => hall m (List.mem_cons_of_mem n hm))
    · by_cases hres : RESERVED_NAMES.contains n
      · have hstep : processItem env false st n = st := by
          unfold processItem; rw [if_pos hres]
        rw [hstep]
        exact ih st (fun m hm => hall m (List.mem_cons_of_mem n hm))
      · have hres' : RESERVED_NAMES.contains n = false := by simpa using hres
        have hstep := processItem_dir_step env false st n fls hres' hdir
        rw [hstep]
        have hrest := ih { st with events := st.events ++ [Event.skipDir n] }
          (fun m hm => by simpa using hall m (List.mem_cons_of_mem n hm))
        refine ⟨by simpa using hrest.1, by simpa using hrest.2.1, ?_⟩
        rcases hrest.2.2 with ⟨evs, hevs, hinfo⟩
        refine ⟨Event.skipDir n :: evs, ?_, ?_⟩
        · rw [hevs]
          simp
        · intro e he
          rcases List.mem_cons.mp he with rfl | hr
          · rfl
          · exact hinfo e hr

theorem organize_on_settled (env : Env) (fs : FS) (prev : List (Path × Path))
    (hl : env.listFails = false)
    (hset : ∀ e ∈ fs.root, e.2.isADir = true ∨ e.1 ∈ RESERVED_NAMES) :
    (organize_directory env fs false prev).processed = 0 ∧
    (∀ ev ∈ (organize_directory env fs false prev).events, ev.sev = Sev.info) ∧
    (organize_directory env fs false prev).fs = fs := by
  have hpre : ∀ n ∈ listdir fs, RESERVED_NAMES.contains n = true ∨
      ∃ fls, rootFind fs n = some (Entry.dir fls) := by
    intro n hn
    cases hfind : rootFind fs n with
    | none => exact absurd hfind (listdir_mem_found fs n hn)
    | some v =>
      rcases rootFind_some_elim fs n v hfind with ⟨nm, hf, hnm⟩
      have hmem := List.mem_of_find?_eq_some hf
      rcases hset _ hmem with hd | hr
      · cases v with
        | file c => simp [Entry.isADir] at hd
        | dir fls => exact Or.inr ⟨fls, rfl⟩
      · exact Or.inl (by rw [← eq_of_beq hnm]; simpa using hr)
  have hfold := allDirs_fold env (listdir fs)
    { fs := fs, analytics := zeroAnalytics, sizes := [], processed := 0,
      actions := [], events := [Event.start] } hpre
  rcases hfold.2.2 with ⟨evs, hevs, hinfo⟩
  unfold organize_directory
  simp only [hl, Bool.false_eq_true, if_false]
  repeat' split
  all_goals refine ⟨?_, ?_, ?_⟩
  all_goals first
    | simpa using hfold.2.1
    | simpa using hfold.1
    | (simp_all
       refine ⟨rfl, ?_⟩
       intro a ha
       rcases ha with ha | rfl | rfl
       · exact hinfo a ha
       · rfl
       · rfl)
    | simp_all

theorem organize_fs_eq_fold (env : Env) (fs : FS) (prev : List (Path × Path))
    (hl : env.listFails = false) :
    (organize_directory env fs false prev).fs =
      ((listdir fs).foldl (processItem env false)
        { fs := fs, analytics := zeroAnalytics, sizes := [], processed := 0,
          actions := [], events := [Event.start] }).fs := by
  unfold organize_directory
  simp only [hl, Bool.false_eq_true, if_false]
  repeat' split
  all_goals simp_all

/-- Claim C5 (amended): when the first non-dry run hits no filesystem
failures and no top-level file bears a category name, every file is
relocated, so a second non-dry run whose listing succeeds processes zero
files, emits only informational messages (no warnings or errors), and
changes nothing. -/
theorem second_run_idle (fs : FS) (prev prev2 : List (Path × Path)) (env2 : Env)
    (hnd : (fs.root.map Prod.fst).Nodup)
    (hC : ∀ e ∈ fs.root, e.2.isADir = true ∨ e.1 ∉ categoryNames)
    (hl2 : env2.listFails = false) :
    (organize_directory env2
        (organize_directory benignEnv fs false prev).fs false prev2).processed = 0 ∧
    (∀ ev ∈ (organize_directory env2
        (organize_directory benignEnv fs false prev).fs false prev2).events,
      ev.sev = Sev.info) ∧
    (organize_directory env2
        (organize_directory benignEnv fs false prev).fs false prev2).fs =
      (organize_directory benignEnv fs false prev).fs := by
  have hrun := benign_fold_settles benignEnv (fun _ => rfl) (fun _ => rfl)
    (listdir fs)
    { fs := fs, analytics := zeroAnalytics, sizes := [], processed := 0,
      actions := [], events := [Event.start] }
    hnd hC
    (fun e he => Or.inr (Or.inr (List.mem_map_of_mem Prod.fst he)))
  have hproj := organize_fs_eq_fold benignEnv fs prev rfl
  have hset : ∀ e ∈ (organize_directory benignEnv fs false prev).fs.root,
      e.2.isADir = true ∨ e.1 ∈ RESERVED_NAMES := by
    rw [hproj]
    exact hrun.2.2
  exact organize_on_settled env2 _ prev2 hl2 hset

/-- Counterexample to claim C5 as stated: a top-level file named
`Others` can never be moved (its own category folder cannot be created
over it), so the second run still reports zero processed files but emits
an error — not the claimed absence of warnings and errors. -/
theorem second_run_error_counterexample :
    (organize_directory benignEnv
        (organize_directory benignEnv ⟨[("Others", Entry.file [0])]⟩ false []).fs
        false []).processed = 0 ∧
    ((organize_directory benignEnv
        (organize_directory benignEnv ⟨[("Others", Entry.file [0])]⟩ false []).fs
        false []).events.any (fun e => e.sev == Sev.error)) = true := by
  decide

/-- Witness for claim C5 on a concrete directory with one file and one
pre-existing subdirectory. -/
theorem second_run_idle_witness :
    ((⟨[("a.txt", Entry.file [0]), ("keep", Entry.dir [("x", [1])])]⟩ :
        FS).root.map Prod.fst).Nodup ∧
    (∀ e ∈ (⟨[("a.txt", Entry.file [0]), ("keep", Entry.dir [("x", [1])])]⟩ :
        FS).root, e.2.isADir = true ∨ e.1 ∉ categoryNames) ∧
    ((organize_directory benignEnv
        (organize_directory benignEnv
          ⟨[("a.txt", Entry.file [0]), ("keep", Entry.dir [("x", [1])])]⟩
          false []).fs false []).processed = 0 ∧
      (∀ ev ∈ (organize_directory benignEnv
          (organize_directory benignEnv
            ⟨[("a.txt", Entry.file [0]), ("keep", Entry.dir [("x", [1])])]⟩
            false []).fs false []).events, ev.sev = Sev.info) ∧
      (organize_directory benignEnv
          (organize_directory benignEnv
            ⟨[("a.txt", Entry.file [0]), ("keep", Entry.dir [("x", [1])])]⟩
            false []).fs false []).fs =
        (organize_directory benignEnv
          ⟨[("a.txt", Entry.file [0]), ("keep", Entry.dir [("x", [1])])]⟩
          false []).fs) :=
  ⟨by decide, by decide,
   second_run_idle
     ⟨[("a.txt", Entry.file [0]), ("keep", Entry.dir [("x", [1])])]⟩
     [] [] benignEnv (by decide) (by decide) rfl⟩

end FileOrganizer

namespace FileOrganizer

theorem undoOne_fs_irrel (f : FS) (E E' : List Event) (a : Path × Path) :
    (undoOne ⟨f, E⟩ a).fs = (undoOne ⟨f, E'⟩ a).fs := by
  unfold undoOne
  dsimp only
  repeat' split
  all_goals rfl

theorem undoFold_foldl_fs (acts : List (Path × Path)) :
    ∀ (f : FS) (E : List Event),
      (acts.foldl undoOne ⟨f, E⟩).fs = (acts.foldl undoOne ⟨f, []⟩).fs := by
  induction acts with
  | nil => intro f E; rfl
  | cons a t ih =>
    intro f E
    rw [List.foldl_cons, List.foldl_cons]
    calc (List.foldl undoOne (undoOne ⟨f, E⟩ a) t).fs
        = (List.foldl undoOne ⟨(undoOne ⟨f, E⟩ a).fs, []⟩ t).fs :=
          ih (undoOne ⟨f, E⟩ a).fs (undoOne ⟨f, E⟩ a).events
      _ = (List.foldl undoOne ⟨(undoOne ⟨f, []⟩ a).fs, []⟩ t).fs := by
          rw [undoOne_fs_irrel f E [] a]
      _ = (List.foldl undoOne (undoOne ⟨f, []⟩ a) t).fs :=
          (ih (undoOne ⟨f, []⟩ a).fs (undoOne ⟨f, []⟩ a).events).symm

theorem undoFold_cons (a : Path × Path) (acts : List (Path × Path)) (g : FS) :
    undoFold (a :: acts) g = (undoOne ⟨undoFold acts g, []⟩ a).fs := by
  unfold undoFold
  rw [List.reverse_cons, List.foldl_append, List.foldl_cons, List.foldl_nil]
  have h1 : acts.reverse.foldl undoOne ⟨g, []⟩ =
      ⟨(acts.reverse.foldl undoOne ⟨g, []⟩).fs,
       (acts.reverse.foldl undoOne ⟨g, []⟩).events⟩ := rfl
  rw [h1]
  exact undoOne_fs_irrel _ _ [] a

theorem mem_eraseP_of_name_ne {α : Type} (n : String) :
    ∀ (l : List (String × α)) (e : String × α), e ∈ l → (e.1 == n) = false →
      e ∈ l.eraseP (fun x => x.1 == n) := by
  intro l
  induction l with
  | nil => intro e he; simp at he
  | cons b t ih =>
    intro e he hne
    by_cases hb : ((fun (x : String × α) => x.1 == n) b) = true
    · have h1 : (b :: t).eraseP (fun x : String × α => x.1 == n) = t :=
        List.eraseP_cons_of_pos hb
      rw [h1]
      rcases List.mem_cons.mp he with heq | hr
      · rw [heq] at hne
        exact absurd hb (by simp [hne])
      · exact hr
    · have h1 : (b :: t).eraseP (fun x : String × α => x.1 == n) =
          b :: t.eraseP (fun x : String × α => x.1 == n) :=
        List.eraseP_cons_of_neg hb
      rw [h1]
      rcases List.mem_cons.mp he with heq | hr
      · rw [heq]
        exact List.mem_cons_self _ _
      · exact List.mem_cons_of_mem b (ih e hr hne)

theorem filter_eq_eraseP_of_nodup {α : Type} (n : String) :
    ∀ (l : List (String × α)), (l.map Prod.fst).Nodup →
      l.filter (fun e => !(e.1 == n)) = l.eraseP (fun x => x.1 == n) := by
  intro l
  induction l with
  | nil => intro _; rfl
  | cons b t ih =>
    intro hnd
    simp only [List.map_cons, List.nodup_cons] at hnd
    by_cases hb : ((fun (x : String × α) => x.1 == n) b) = true
    · have h1 : (b :: t).eraseP (fun x : String × α => x.1 == n) = t :=
        List.eraseP_cons_of_pos hb
      rw [h1, List.filter_cons]
      have hbn : b.1 = n := eq_of_beq hb
      rw [show (!(b.1 == n)) = false by simp [hb]]
      simp only [Bool.false_eq_true, if_false]
      have : ∀ e ∈ t, (!(e.1 == n)) = true := by
        intro e he
        have hne : e.1 ≠ n := by
          intro hh
          apply hnd.1
          rw [hbn, ← hh]
          exact List.mem_map_of_mem Prod.fst he
        simpa using hne
      exact List.filter_eq_self.mpr this
    · have h1 : (b :: t).eraseP (fun x : String × α => x.1 == n) =
          b :: t.eraseP (fun x : String × α => x.1 == n) :=
        List.eraseP_cons_of_neg hb
      rw [h1, List.filter_cons]
      rw [show (!(b.1 == n)) = true by simpa using hb]
      simp only [if_true]
      rw [ih hnd.2]
theorem find?_filter_names {α : Type} (M : List String) (x : String)
    (hx : M.contains x = false) :
    ∀ (l : List (String × α)),
      (l.filter (fun e => !(M.contains e.1))).find? (fun e => e.1 == x) =
        l.find? (fun e => e.1 == x) := by
  intro l
  induction l with
  | nil => rfl
  | cons b t ih =>
    rw [List.filter_cons]
    by_cases hb : (M.contains b.1) = true
    · rw [show (!(M.contains b.1)) = false from by rw [hb]; rfl]
      simp only [Bool.false_eq_true, if_false]
      rw [ih, List.find?_cons]
      have hbx : (b.1 == x) = false := by
        by_contra hc
        have hbx' : (b.1 == x) = true := by
          cases hz : (b.1 == x)
          · exact absurd hz hc
          · rfl
        rw [eq_of_beq hbx'] at hb
        rw [hb] at hx
        cases hx
      rw [hbx]
    · have hb' : (M.contains b.1) = false := by
        cases hq : M.contains b.1
        · rfl
        · exact absurd hq hb
      rw [show (!(M.contains b.1)) = true from by rw [hb']; rfl]
      rw [if_pos rfl]
      rw [List.find?_cons, List.find?_cons]
      cases hz : (b.1 == x)
      · exact ih
      · rfl

theorem map_filter_names {α β : Type} (f : String × α → String × β)
    (hf : ∀ e, (f e).1 = e.1) (p : String → Bool) :
    ∀ (l : List (String × α)),
      (l.filter (fun e => p e.1)).map f =
        (l.map f).filter (fun e => p e.1) := by
  intro l
  induction l with
  | nil => rfl
  | cons b t ih =>
    rw [List.filter_cons, List.map_cons, List.filter_cons, hf b]
    cases hp : p b.1 <;> simp [hp, ih]

theorem mem_file_doMove_elim (fs1 : FS) (n cat : String) (c : Content)
    (m : String) (mc : Content)
    (hmm : (m, Entry.file mc) ∈ (doMove fs1 n cat c).root) :
    (m, Entry.file mc) ∈ fs1.root := by
  unfold doMove at hmm
  rcases List.mem_map.mp hmm with ⟨e0, he0, heq⟩
  have he0' : e0 ∈ fs1.root := (List.eraseP_sublist fs1.root).mem he0
  by_cases hb : (e0.1 == cat) = true
  · rw [if_pos hb] at heq
    cases he2 : e0.2 with
    | dir fls =>
      rw [he2] at heq
      have heq' : (e0.1, Entry.dir (if fls.any (fun f => f.1 == n)
           then fls.map (fun f => if f.1 == n then (n, c) else f)
           else fls ++ [(n, c)])) = (m, Entry.file mc) := heq
      injection heq' with h1 h2
      injection h2
    | file c0 =>
      rw [he2] at heq
      have heq' : (e0.1, Entry.file c0) = (m, Entry.file mc) := heq
      injection heq' with h1 h2
      have hp : e0 = (m, Entry.file mc) := by
        calc e0 = (e0.1, e0.2) := rfl
          _ = (m, Entry.file mc) := by rw [h1, he2, h2]
      rw [← hp]
      exact he0'
  · rw [if_neg hb] at heq
    rw [← heq]
    exact he0'

theorem mem_file_ensureDir_elim (fs1 : FS) (cat : String)
    (m : String) (mc : Content)
    (hmm : (m, Entry.file mc) ∈ (ensureDir fs1 cat).root) :
    (m, Entry.file mc) ∈ fs1.root := by
  unfold ensureDir at hmm
  cases hr : rootFind fs1 cat with
  | none =>
    rw [hr] at hmm
    rcases List.mem_append.mp hmm with h | h
    · exact h
    · simp at h
  | some e =>
    rw [hr] at hmm
    exact hmm

theorem contains_append_str (M N : List String) (x : String) :
    (M ++ N).contains x = (M.contains x || N.contains x) := by
  simp [List.contains_cons]

theorem contains_true_iff_mem (M : List String) (x : String) :
    M.contains x = true ↔ x ∈ M :=
  List.elem_iff

theorem contains_false_iff_not_mem (M : List String) (x : String) :
    M.contains x = false ↔ x ∉ M := by
  constructor
  · intro h hx
    rw [(contains_true_iff_mem M x).mpr hx] at h
    cases h
  · intro h
    cases hc : M.contains x
    · rfl
    · exact absurd ((contains_true_iff_mem M x).mp hc) h

theorem intoDir_append (P Q : List Moved) (d : String) :
    intoDir (P ++ Q) d = intoDir P d ++ intoDir Q d := by
  unfold intoDir
  rw [List.filter_append, List.map_append]

theorem intoDir_single_pos (cat n : String) (c : Content) :
    intoDir [(cat, n, c)] cat = [(n, c)] := by
  simp [intoDir]

theorem intoDir_single_neg (cat n : String) (c : Content) (d : String)
    (h : (cat == d) = false) :
    intoDir [(cat, n, c)] d = [] := by
  simp [intoDir, h]

theorem intoDir_names_mem (P : List Moved) (d : String) (x : String)
    (hx : x ∈ (intoDir P d).map Prod.fst) : x ∈ movedNames P := by
  unfold intoDir at hx
  rw [List.map_map] at hx
  rcases List.mem_map.mp hx with ⟨m, hm, hmx⟩
  have hmP : m ∈ P := List.mem_of_mem_filter hm
  unfold movedNames
  refine List.mem_map.mpr ⟨m, hmP, ?_⟩
  rw [← hmx]
  rfl

theorem orgEntry_name (pending : List Moved) (e : String × Entry) :
    (orgEntry pending e).1 = e.1 := by
  unfold orgEntry
  repeat' (first | rfl | split)

theorem orgEntry_file (pending : List Moved) (e : String × Entry)
    (c : Content) (h : e.2 = Entry.file c) : orgEntry pending e = e := by
  unfold orgEntry
  rw [h]

theorem orgEntry_dir (pending : List Moved) (e : String × Entry)
    (fls : List (String × Content)) (h : e.2 = Entry.dir fls) :
    orgEntry pending e = (e.1, Entry.dir (fls ++ intoDir pending e.1)) := by
  unfold orgEntry
  rw [h]

theorem eraseP_map_nameKeep {α β : Type} (f : String × α → String × β)
    (hf : ∀ e, (f e).1 = e.1) (n : String) :
    ∀ (l : List (String × α)),
      (l.map f).eraseP (fun e => e.1 == n) =
        (l.eraseP (fun e => e.1 == n)).map f := by
  intro l
  induction l with
  | nil => rfl
  | cons b t ih =>
    rw [List.map_cons]
    by_cases hb : (b.1 == n) = true
    · have h1 : ((f b :: t.map f).eraseP (fun e => e.1 == n)) = t.map f :=
        List.eraseP_cons_of_pos (by rw [hf b]; exact hb)
      have h2 : ((b :: t).eraseP (fun e => e.1 == n)) = t :=
        List.eraseP_cons_of_pos hb
      rw [h1, h2]
    · have h1 : ((f b :: t.map f).eraseP (fun e => e.1 == n)) =
          f b :: (t.map f).eraseP (fun e => e.1 == n) :=
        List.eraseP_cons_of_neg (by rw [hf b]; simpa using hb)
      have h2 : ((b :: t).eraseP (fun e => e.1 == n)) =
          b :: t.eraseP (fun e => e.1 == n) :=
        List.eraseP_cons_of_neg (by simpa using hb)
      rw [h1, h2, ih, List.map_cons]

theorem eraseP_filter_names {α : Type} (M : List String) (n : String) :
    ∀ (l : List (String × α)), (l.map Prod.fst).Nodup →
      (l.filter (fun e => !(M.contains e.1))).eraseP (fun e => e.1 == n) =
        l.filter (fun e => !((M ++ [n]).contains e.1)) := by
  intro l
  induction l with
  | nil => intro _; rfl
  | cons b t ih =>
    intro hnd
    rw [List.map_cons, List.nodup_cons] at hnd
    rw [List.filter_cons, List.filter_cons]
    have hMn : ((M ++ [n]).contains b.1) = (M.contains b.1 || (b.1 == n)) := by
      rw [contains_append_str]
      congr 1
      rw [List.contains_cons, List.contains_nil, Bool.or_false]
    cases hM : M.contains b.1 with
    | true =>
      rw [hMn, hM]
      simp only [Bool.true_or, Bool.not_true, Bool.false_eq_true, if_false]
      exact ih hnd.2
    | false =>
      cases hn : (b.1 == n) with
      | true =>
        rw [hMn, hM, hn]
        simp only [Bool.false_or, Bool.not_true, Bool.not_false, if_true,
          Bool.false_eq_true, if_false]
        have h1 : ((b :: t.filter (fun e => !(M.contains e.1))).eraseP
            (fun e => e.1 == n)) = t.filter (fun e => !(M.contains e.1)) :=
          List.eraseP_cons_of_pos hn
        rw [h1]
        apply List.filter_congr
        intro e he
        have hbn : b.1 = n := eq_of_beq hn
        have hmem : e.1 ∈ t.map Prod.fst := List.mem_map_of_mem Prod.fst he
        have hne : e.1 ≠ n := by
          intro hh
          apply hnd.1
          rw [hbn, ← hh]
          exact hmem
        have hen : (e.1 == n) = false := beq_eq_false_iff_ne.mpr hne
        have hsing : ([n].contains e.1) = (e.1 == n) := by
          rw [List.contains_cons, List.contains_nil, Bool.or_false]
        rw [contains_append_str, hsing, hen, Bool.or_false]
      | false =>
        rw [hMn, hM, hn]
        simp only [Bool.or_false, Bool.false_or, Bool.not_false, if_true]
        have h1 : ((b :: t.filter (fun e => !(M.contains e.1))).eraseP
            (fun e => e.1 == n)) =
            b :: (t.filter (fun e => !(M.contains e.1))).eraseP
              (fun e => e.1 == n) :=
          List.eraseP_cons_of_neg (by simp [hn])
        rw [h1, ih hnd.2]

theorem find?_map_keyDir (pending : List Moved) (cat : String) :
    ∀ (created : List String),
      (created.map (keyDir pending)).find? (fun e => e.1 == cat) =
        (created.find? (fun d => d == cat)).map (keyDir pending) := by
  intro created
  induction created with
  | nil => rfl
  | cons b t ih =>
    rw [List.map_cons, List.find?_cons, List.find?_cons]
    have hk : ((keyDir pending b).1 == cat) = (b == cat) := rfl
    rw [hk]
    cases h : (b == cat) <;> simp [h, ih]

theorem find?_beq_self (cat : String) :
    ∀ (created : List String), cat ∈ created →
      created.find? (fun d => d == cat) = some cat := by
  intro created
  induction created with
  | nil => intro h; simp at h
  | cons b t ih =>
    intro h
    rw [List.find?_cons]
    cases hb : (b == cat) with
    | true =>
      rw [eq_of_beq hb]
    | false =>
      rcases List.mem_cons.mp h with heq | ht
      · rw [heq] at hb
        simp at hb
      · exact ih ht

theorem rootFind_eq_map (fs : FS) (x : String) :
    rootFind fs x = (fs.root.find? (fun e => e.1 == x)).map (fun e => e.2) := by
  unfold rootFind
  cases h : fs.root.find? (fun e => e.1 == x) <;> rfl

theorem mem_midShape_elim (fs0 : FS) (allN created : List String)
    (pending restored : List Moved) (p : String × Entry)
    (hp : p ∈ (midShape fs0 allN created pending restored).root) :
    (∃ e0, e0 ∈ fs0.root ∧ (!(allN.contains e0.1)) = true ∧ p = orgEntry pending e0) ∨
    (∃ d, d ∈ created ∧ p = keyDir pending d) ∨
    (∃ m, m ∈ restored ∧ p = fileOf m) := by
  unfold midShape at hp
  rcases List.mem_append.mp hp with hAB | hC
  · rcases List.mem_append.mp hAB with hA | hB
    · rcases List.mem_map.mp hA with ⟨e0, he0, heq⟩
      rcases List.mem_filter.mp he0 with ⟨hmem, hpred⟩
      exact Or.inl ⟨e0, hmem, hpred, heq.symm⟩
    · rcases List.mem_map.mp hB with ⟨d, hd, heq⟩
      exact Or.inr (Or.inl ⟨d, hd, heq.symm⟩)
  · rcases List.mem_map.mp hC with ⟨m, hm, heq⟩
    exact Or.inr (Or.inr ⟨m, hm, heq.symm⟩)

theorem rootFind_midShape_split (fs0 : FS) (allN created : List String)
    (pending restored : List Moved) (x : String) :
    (midShape fs0 allN created pending restored).root.find? (fun e => e.1 == x) =
      (((fs0.root.filter (fun e => !(allN.contains e.1))).find?
          (fun e => e.1 == x)).map (orgEntry pending)).or
        ((((created.find? (fun d => d == x)).map (keyDir pending))).or
          ((restored.map fileOf).find? (fun e => e.1 == x))) := by
  unfold midShape
  rw [List.find?_append, List.find?_append]
  rw [find?_map_nameKeep (orgEntry pending) (orgEntry_name pending) x]
  rw [find?_map_keyDir pending x created]
  rw [Option.or_assoc]

theorem rootFind_midShape_file (fs0 : FS) (allN created : List String)
    (pending : List Moved) (x : String) (c : Content)
    (h : rootFind (midShape fs0 allN created pending []) x =
      some (Entry.file c)) :
    (x, Entry.file c) ∈ fs0.root ∧ allN.contains x = false := by
  rw [rootFind_eq_map] at h
  cases hf : (midShape fs0 allN created pending []).root.find?
      (fun e => e.1 == x) with
  | none =>
    rw [hf] at h
    cases h
  | some p =>
    rw [hf] at h
    have h' : some p.2 = some (Entry.file c) := h
    have hp2 : p.2 = Entry.file c := by injection h'
    have hpx : (p.1 == x) = true := by simpa using List.find?_some hf
    have hmem := List.mem_of_find?_eq_some hf
    rcases mem_midShape_elim fs0 allN created pending [] p hmem with
      ⟨e0, he0, hpred, heq⟩ | ⟨d, hd, heq⟩ | ⟨m, hm, _⟩
    · cases he2 : e0.2 with
      | dir fls =>
        rw [heq, orgEntry_dir pending e0 fls he2] at hp2
        cases hp2
      | file c0 =>
        rw [heq, orgEntry_file pending e0 c0 he2] at hp2
        rw [heq, orgEntry_file pending e0 c0 he2] at hpx
        have he1x : e0.1 = x := eq_of_beq hpx
        have he0x : e0 = (x, Entry.file c) := by
          calc e0 = (e0.1, e0.2) := rfl
            _ = (x, Entry.file c) := by rw [he1x, hp2]
        constructor
        · rw [← he0x]
          exact he0
        · have : (!(allN.contains x)) = true := by
            rw [← he1x]
            exact hpred
          simpa using this
    · rw [heq] at hp2
      cases hp2
    · simp at hm

theorem rootFind_midShape_dirOrig (fs0 : FS) (allN created : List String)
    (pending restored : List Moved) (cat : String)
    (fls : List (String × Content))
    (hnd : (rootNames fs0).Nodup)
    (hmem : (cat, Entry.dir fls) ∈ fs0.root)
    (hcatN : allN.contains cat = false) :
    rootFind (midShape fs0 allN created pending restored) cat =
      some (Entry.dir (fls ++ intoDir pending cat)) := by
  rw [rootFind_eq_map, rootFind_midShape_split]
  have hfmem : (cat, Entry.dir fls) ∈
      fs0.root.filter (fun e => !(allN.contains e.1)) := by
    refine List.mem_filter.mpr ⟨hmem, ?_⟩
    show (!(allN.contains cat)) = true
    rw [hcatN]
    rfl
  have hfnd : ((fs0.root.filter (fun e => !(allN.contains e.1))).map
      Prod.fst).Nodup := by
    have hsub : ((fs0.root.filter (fun e => !(allN.contains e.1))).map
        Prod.fst).Sublist (fs0.root.map Prod.fst) :=
      (List.filter_sublist fs0.root).map Prod.fst
    exact hnd.sublist hsub
  rw [find?_name_of_nodup cat (Entry.dir fls) _ hfnd hfmem]
  rfl

theorem rootFind_midShape_dirCreated (fs0 : FS) (allN created : List String)
    (pending restored : List Moved) (cat : String)
    (hno : cat ∉ rootNames fs0)
    (hmem : cat ∈ created) :
    rootFind (midShape fs0 allN created pending restored) cat =
      some (Entry.dir (intoDir pending cat)) := by
  rw [rootFind_eq_map, rootFind_midShape_split]
  have hA : (fs0.root.filter (fun e => !(allN.contains e.1))).find?
      (fun e => e.1 == cat) = none := by
    rw [List.find?_eq_none]
    intro p hp
    have hp0 : p ∈ fs0.root := List.mem_of_mem_filter hp
    intro hpx
    apply hno
    rw [← eq_of_beq hpx]
    exact List.mem_map_of_mem Prod.fst hp0
  rw [hA, find?_beq_self cat created hmem]
  rfl

theorem rootFind_midShape_none_elim (fs0 : FS) (allN created : List String)
    (pending restored : List Moved) (x : String)
    (h : rootFind (midShape fs0 allN created pending restored) x = none)
    (hxN : allN.contains x = false) :
    x ∉ rootNames fs0 ∧ x ∉ created := by
  rw [rootFind_eq_map, rootFind_midShape_split] at h
  constructor
  · intro hx
    rcases List.mem_map.mp hx with ⟨e0, he0, hex⟩
    have hfmem : e0 ∈ fs0.root.filter (fun e => !(allN.contains e.1)) := by
      refine List.mem_filter.mpr ⟨he0, ?_⟩
      show (!(allN.contains e0.1)) = true
      rw [hex, hxN]
      rfl
    cases hf : (fs0.root.filter (fun e => !(allN.contains e.1))).find?
        (fun e => e.1 == x) with
    | some p =>
      rw [hf] at h
      cases h
    | none =>
      rw [List.find?_eq_none] at hf
      exact hf e0 hfmem (by simpa using hex)
  · intro hx
    cases hf : (fs0.root.filter (fun e => !(allN.contains e.1))).find?
        (fun e => e.1 == x) with
    | some p =>
      rw [hf] at h
      cases h
    | none =>
      rw [hf, find?_beq_self x created hx] at h
      cases h

theorem rootFind_midShape_some_names (fs0 : FS) (allN created : List String)
    (pending : List Moved) (x : String) (e : Entry)
    (h : rootFind (midShape fs0 allN created pending []) x = some e) :
    x ∈ rootNames fs0 ∨ x ∈ created := by
  rw [rootFind_eq_map] at h
  cases hf : (midShape fs0 allN created pending []).root.find?
      (fun e => e.1 == x) with
  | none =>
    rw [hf] at h
    cases h
  | some p =>
    have hpx : (p.1 == x) = true := by simpa using List.find?_some hf
    have hmem := List.mem_of_find?_eq_some hf
    rcases mem_midShape_elim fs0 allN created pending [] p hmem with
      ⟨e0, he0, _, heq⟩ | ⟨d, hd, heq⟩ | ⟨m, hm, _⟩
    · left
      rw [heq, orgEntry_name pending e0] at hpx
      rw [← eq_of_beq hpx]
      exact List.mem_map_of_mem Prod.fst he0
    · right
      have : (d == x) = true := by
        rw [heq] at hpx
        exact hpx
      rw [← eq_of_beq this]
      exact hd
    · simp at hm

theorem intoDir_any_name_false (pending : List Moved) (d n : String)
    (allN : List String)
    (hsub : ∀ x ∈ movedNames pending, x ∈ allN)
    (hnN : allN.contains n = false) :
    (intoDir pending d).any (fun f => f.1 == n) = false := by
  cases h : (intoDir pending d).any (fun f => f.1 == n) with
  | false => rfl
  | true =>
    exfalso
    rcases List.any_eq_true.mp h with ⟨f, hf, hfn⟩
    have hfn' : (f.1 == n) = true := hfn
    have hm' : f.1 ∈ (intoDir pending d).map Prod.fst :=
      List.mem_map_of_mem Prod.fst hf
    rw [eq_of_beq hfn'] at hm'
    have hnall : n ∈ allN := hsub n (intoDir_names_mem pending d n hm')
    rw [(contains_true_iff_mem allN n).mpr hnall] at hnN
    cases hnN

theorem ensureDir_midShape (fs0 : FS) (allN created : List String)
    (pending : List Moved) (cat : String)
    (hfind : rootFind (midShape fs0 allN created pending []) cat = none)
    (hinto : intoDir pending cat = []) :
    ensureDir (midShape fs0 allN created pending []) cat =
      midShape fs0 allN (created ++ [cat]) pending [] := by
  unfold ensureDir
  rw [hfind]
  unfold midShape
  rw [List.map_append]
  have hkey : [cat].map (keyDir pending) = [(cat, Entry.dir [])] := by
    unfold keyDir
    rw [List.map_cons, List.map_nil, hinto]
  rw [hkey]
  simp [List.append_assoc]

theorem step_orgEntry (pending : List Moved) (cat n : String) (c : Content)
    (e : String × Entry)
    (hAny : ∀ fls, e.2 = Entry.dir fls → (e.1 == cat) = true →
      ((fls ++ intoDir pending e.1).any (fun f => f.1 == n)) = false) :
    (fun e => if e.1 == cat then
      match e.2 with
      | Entry.dir files =>
        (e.1, Entry.dir
          (if files.any (fun f => f.1 == n)
           then files.map (fun f => if f.1 == n then (n, c) else f)
           else files ++ [(n, c)]))
      | x => (e.1, x)
     else e) (orgEntry pending e) = orgEntry (pending ++ [(cat, n, c)]) e := by
  cases he2 : e.2 with
  | file c0 =>
    rw [orgEntry_file pending e c0 he2,
      orgEntry_file (pending ++ [(cat, n, c)]) e c0 he2]
    dsimp only
    by_cases hc : (e.1 == cat) = true
    · rw [if_pos hc]
      have hee : e = (e.1, Entry.file c0) := by rw [← he2]
      rw [hee]
    · rw [if_neg hc]
  | dir fls =>
    rw [orgEntry_dir pending e fls he2,
      orgEntry_dir (pending ++ [(cat, n, c)]) e fls he2]
    dsimp only
    by_cases hc : (e.1 == cat) = true
    · rw [if_pos hc, hAny fls he2 hc]
      simp only [Bool.false_eq_true, if_false]
      have hcat : e.1 = cat := eq_of_beq hc
      rw [intoDir_append, hcat, intoDir_single_pos, List.append_assoc]
    · rw [if_neg hc]
      have hcein : (cat == e.1) = false := by
        have h1 : ¬ e.1 = cat := by
          intro hh
          exact hc (by rw [hh]; exact beq_self_eq_true cat)
        exact beq_eq_false_iff_ne.mpr (fun hh => h1 hh.symm)
      rw [intoDir_append, intoDir_single_neg cat n c e.1 hcein, List.append_nil]

theorem step_keyDir (pending : List Moved) (cat n : String) (c : Content)
    (d : String)
    (hY : (intoDir pending d).any (fun f => f.1 == n) = false) :
    (fun e => if e.1 == cat then
      match e.2 with
      | Entry.dir files =>
        (e.1, Entry.dir
          (if files.any (fun f => f.1 == n)
           then files.map (fun f => if f.1 == n then (n, c) else f)
           else files ++ [(n, c)]))
      | x => (e.1, x)
     else e) (keyDir pending d) = keyDir (pending ++ [(cat, n, c)]) d := by
  unfold keyDir
  dsimp only
  by_cases hc : (d == cat) = true
  · rw [if_pos hc, hY]
    simp only [Bool.false_eq_true, if_false]
    have hcat : d = cat := eq_of_beq hc
    rw [intoDir_append, hcat, intoDir_single_pos]
  · rw [if_neg hc]
    have hcein : (cat == d) = false := by
      have h1 : ¬ d = cat := by
        intro hh
        exact hc (by rw [hh]; exact beq_self_eq_true cat)
      exact beq_eq_false_iff_ne.mpr (fun hh => h1 hh.symm)
    rw [intoDir_append, intoDir_single_neg cat n c d hcein, List.append_nil]

theorem mem_rootFileNames_of_file (fs0 : FS) (n : String) (c : Content)
    (hmem : (n, Entry.file c) ∈ fs0.root) : n ∈ rootFileNames fs0 := by
  unfold rootFileNames
  refine List.mem_map.mpr ⟨(n, Entry.file c), ?_, rfl⟩
  refine List.mem_filter.mpr ⟨hmem, ?_⟩
  rfl

theorem doMove_midShape (fs0 : FS) (allN created : List String)
    (pending : List Moved) (cat n : String) (c : Content)
    (hnd : (rootNames fs0).Nodup)
    (hcol : NoCollision fs0)
    (hmem : (n, Entry.file c) ∈ fs0.root)
    (hnN : allN.contains n = false)
    (hsub : ∀ x ∈ movedNames pending, x ∈ allN) :
    doMove (midShape fs0 allN created pending []) n cat c =
      midShape fs0 (allN ++ [n]) created (pending ++ [(cat, n, c)]) [] := by
  have hA : (n, Entry.file c) ∈
      (fs0.root.filter (fun e => !(allN.contains e.1))).map (orgEntry pending) := by
    refine List.mem_map.mpr ⟨(n, Entry.file c), ?_, ?_⟩
    · refine List.mem_filter.mpr ⟨hmem, ?_⟩
      show (!(allN.contains n)) = true
      rw [hnN]
      rfl
    · exact orgEntry_file pending (n, Entry.file c) c rfl
  have hpred : ((fun (e : String × Entry) => e.1 == n) (n, Entry.file c)) = true := by
    simp
  have he1 : (midShape fs0 allN created pending []).root.eraseP
      (fun e => e.1 == n) =
      (fs0.root.filter (fun e => !((allN ++ [n]).contains e.1))).map
        (orgEntry pending) ++ created.map (keyDir pending) ++
        List.map fileOf [] := by
    have hroot : (midShape fs0 allN created pending []).root =
        (fs0.root.filter (fun e => !(allN.contains e.1))).map (orgEntry pending) ++
          created.map (keyDir pending) ++ List.map fileOf [] := rfl
    rw [hroot]
    rw [@List.eraseP_append_left (String × Entry) (fun e => e.1 == n)
      (n, Entry.file c) hpred _ (List.map fileOf [])
      (show (n, Entry.file c) ∈
          (fs0.root.filter (fun e => !(allN.contains e.1))).map (orgEntry pending) ++
            created.map (keyDir pending) from List.mem_append.mpr (Or.inl hA))]
    rw [@List.eraseP_append_left (String × Entry) (fun e => e.1 == n)
      (n, Entry.file c) hpred _ (created.map (keyDir pending)) hA]
    rw [eraseP_map_nameKeep (orgEntry pending) (orgEntry_name pending) n]
    rw [eraseP_filter_names allN n fs0.root hnd]
  unfold doMove
  rw [he1]
  unfold midShape
  congr 1
  rw [List.map_append, List.map_append, List.map_map, List.map_map]
  have hApart : (fs0.root.filter (fun e => !((allN ++ [n]).contains e.1))).map
      ((fun e => if e.1 == cat then
        match e.2 with
        | Entry.dir files =>
          (e.1, Entry.dir
            (if files.any (fun f => f.1 == n)
             then files.map (fun f => if f.1 == n then (n, c) else f)
             else files ++ [(n, c)]))
        | x => (e.1, x)
       else e) ∘ orgEntry pending) =
      (fs0.root.filter (fun e => !((allN ++ [n]).contains e.1))).map
        (orgEntry (pending ++ [(cat, n, c)])) := by
    refine List.map_congr_left ?_
    intro e he
    refine step_orgEntry pending cat n c e ?_
    intro fls he2 hc
    rw [List.any_append]
    have hX : fls.any (fun f => f.1 == n) = false := by
      cases hx : fls.any (fun f => f.1 == n) with
      | false => rfl
      | true =>
        exfalso
        rcases List.any_eq_true.mp hx with ⟨f, hf, hfn⟩
        have hfn' : (f.1 == n) = true := hfn
        have hnf : n ∈ fls.map Prod.fst := by
          rw [← eq_of_beq hfn']
          exact List.mem_map_of_mem Prod.fst hf
        exact hcol n (mem_rootFileNames_of_file fs0 n c hmem) e
          (List.mem_of_mem_filter he) fls he2 hnf
    rw [hX, intoDir_any_name_false pending e.1 n allN hsub hnN]
    rfl
  have hBpart : created.map
      ((fun e => if e.1 == cat then
        match e.2 with
        | Entry.dir files =>
          (e.1, Entry.dir
            (if files.any (fun f => f.1 == n)
             then files.map (fun f => if f.1 == n then (n, c) else f)
             else files ++ [(n, c)]))
        | x => (e.1, x)
       else e) ∘ keyDir pending) =
      created.map (keyDir (pending ++ [(cat, n, c)])) := by
    refine List.map_congr_left ?_
    intro d _
    exact step_keyDir pending cat n c d
      (intoDir_any_name_false pending d n allN hsub hnN)
  rw [hApart, hBpart]
  rfl

theorem movedNames_append (P Q : List Moved) :
    movedNames (P ++ Q) = movedNames P ++ movedNames Q :=
  List.map_append _ P Q

theorem actionsOf_cons (m : Moved) (t : List Moved) :
    actionsOf (m :: t) = ([m.1, m.2.1], [m.2.1]) :: actionsOf t :=
  rfl

theorem actionsOf_append (P Q : List Moved) :
    actionsOf (P ++ Q) = actionsOf P ++ actionsOf Q :=
  List.map_append _ P Q

theorem nodup_append_singleton {α : Type} (l : List α) (x : α)
    (h : l.Nodup) (hx : x ∉ l) : (l ++ [x]).Nodup := by
  rw [List.nodup_append]
  exact ⟨h, List.nodup_singleton x,
    fun a ha hb => hx ((List.mem_singleton.mp hb) ▸ ha)⟩

theorem GoodRun_nil (fs0 : FS) : GoodRun fs0 [] [] := by
  refine ⟨?_, ?_, ?_, List.nodup_nil, List.nodup_nil, ?_, ?_⟩ <;> simp [movedNames]

theorem GoodRun_grow_created (fs0 : FS) (pending : List Moved)
    (created : List String) (d : String)
    (hG : GoodRun fs0 pending created) (hdC : d ∈ categoryNames)
    (hdF : d ∉ rootNames fs0) (hdNew : d ∉ created) :
    GoodRun fs0 pending (created ++ [d]) := by
  obtain ⟨g1, g2, g3, g4, g5, g6, g7⟩ := hG
  refine ⟨g1, g2, ?_, g4, ?_, ?_, ?_⟩
  · intro m hm
    rcases g3 m hm with h | h
    · exact Or.inl h
    · exact Or.inr (List.mem_append_left [d] h)
  · exact nodup_append_singleton created d g5 hdNew
  · intro e he
    rcases List.mem_append.mp he with h | h
    · exact g6 e h
    · rw [List.mem_singleton.mp h]
      exact hdC
  · intro e he
    rcases List.mem_append.mp he with h | h
    · exact g7 e h
    · rw [List.mem_singleton.mp h]
      exact hdF

theorem GoodRun_grow_pending (fs0 : FS) (pending : List Moved)
    (created : List String) (cat nm : String) (c : Content)
    (hG : GoodRun fs0 pending created)
    (hmem : (nm, Entry.file c) ∈ fs0.root)
    (hnm : nm ∉ movedNames pending)
    (hcat : cat ∈ categoryNames)
    (hloc : cat ∈ rootNames fs0 ∨ cat ∈ created) :
    GoodRun fs0 (pending ++ [(cat, nm, c)]) created := by
  obtain ⟨g1, g2, g3, g4, g5, g6, g7⟩ := hG
  refine ⟨?_, ?_, ?_, ?_, g5, g6, g7⟩
  · intro m hm
    rcases List.mem_append.mp hm with h | h
    · exact g1 m h
    · rw [List.mem_singleton.mp h]
      exact hmem
  · intro m hm
    rcases List.mem_append.mp hm with h | h
    · exact g2 m h
    · rw [List.mem_singleton.mp h]
      exact hcat
  · intro m hm
    rcases List.mem_append.mp hm with h | h
    · exact g3 m h
    · rw [List.mem_singleton.mp h]
      exact hloc
  · rw [movedNames_append]
    exact nodup_append_singleton _ _ g4 hnm

theorem org_fold_shape (env : Env) (fs0 : FS)
    (hnd : (rootNames fs0).Nodup) (hNC : NoCatFiles fs0)
    (hcol : NoCollision fs0) :
    ∀ (rem : List String) (st : RunState) (pending : List Moved)
      (created : List String),
      st.fs = midShape fs0 (movedNames pending) created pending [] →
      GoodRun fs0 pending created →
      ∃ dp dc,
        GoodRun fs0 (pending ++ dp) (created ++ dc) ∧
        ((rem.foldl (processItem env false) st).fs =
          midShape fs0 (movedNames (pending ++ dp)) (created ++ dc)
            (pending ++ dp) []) ∧
        ((rem.foldl (processItem env false) st).actions =
          st.actions ++ actionsOf dp) := by
  intro rem
  induction rem with
  | nil =>
    intro st pending created hfs hG
    refine ⟨[], [], ?_, ?_, ?_⟩
    · simpa using hG
    · simpa using hfs
    · simp [actionsOf]
  | cons nm rest ih =>
    intro st pending created hfs hG
    rw [List.foldl_cons]
    by_cases hres : RESERVED_NAMES.contains nm = true
    · have hstep : processItem env false st nm = st := by
        unfold processItem
        rw [hres]
        rfl
      rw [hstep]
      exact ih st pending created hfs hG
    · have hres' : RESERVED_NAMES.contains nm = false := by
        cases h : RESERVED_NAMES.contains nm
        · rfl
        · exact absurd h hres
      cases hfind : rootFind st.fs nm with
      | none =>
        rw [processItem_absent_step env false st nm hres' hfind]
        rcases ih { st with events := st.events ++ [Event.analyzeWarn nm] }
          pending created hfs hG with ⟨dp, dc, h1, h2, h3⟩
        exact ⟨dp, dc, h1, h2, h3⟩
      | some entry =>
        cases entry with
        | dir fls =>
          rw [processItem_dir_step env false st nm fls hres' hfind]
          rcases ih { st with events := st.events ++ [Event.skipDir nm] }
            pending created hfs hG with ⟨dp, dc, h1, h2, h3⟩
          exact ⟨dp, dc, h1, h2, h3⟩
        | file c =>
          by_cases hsz : env.sizeFails nm = true
          · rw [size_failure_step env false st nm c hres' hfind hsz]
            rcases ih { st with events := st.events ++ [Event.analyzeWarn nm] }
              pending created hfs hG with ⟨dp, dc, h1, h2, h3⟩
            exact ⟨dp, dc, h1, h2, h3⟩
          · have hsz' : env.sizeFails nm = false := by
              cases h : env.sizeFails nm
              · rfl
              · exact absurd h hsz
            have hfind2 := hfind
            rw [hfs] at hfind2
            have hfile := rootFind_midShape_file fs0 (movedNames pending)
              created pending nm c hfind2
            have hnm : nm ∉ movedNames pending :=
              (contains_false_iff_not_mem _ _).mp hfile.2
            have h4 : ∀ c', rootFind st.fs (classify (extLower nm)) ≠
                some (Entry.file c') := by
              intro c' hc'
              rw [hfs] at hc'
              rcases rootFind_midShape_file fs0 (movedNames pending) created
                pending (classify (extLower nm)) c' hc' with ⟨hmemc, _⟩
              exact hNC (classify (extLower nm))
                (mem_rootFileNames_of_file fs0 _ c' hmemc)
                (classify_mem_categoryNames (extLower nm))
            have hcatN : (movedNames pending).contains
                (classify (extLower nm)) = false := by
              apply (contains_false_iff_not_mem _ _).mpr
              intro hin
              rcases List.mem_map.mp hin with ⟨m, hm, hmn⟩
              have hmemm := hG.1 m hm
              have hrf : m.2.1 ∈ rootFileNames fs0 :=
                mem_rootFileNames_of_file fs0 _ _ hmemm
              rw [hmn] at hrf
              exact hNC (classify (extLower nm)) hrf
                (classify_mem_categoryNames (extLower nm))
            have keyEnsure : ∀ (st' : RunState),
                st'.fs = ensureDir st.fs (classify (extLower nm)) →
                st'.actions = st.actions →
                ∃ dp dc,
                  GoodRun fs0 (pending ++ dp) (created ++ dc) ∧
                  ((rest.foldl (processItem env false) st').fs =
                    midShape fs0 (movedNames (pending ++ dp)) (created ++ dc)
                      (pending ++ dp) []) ∧
                  ((rest.foldl (processItem env false) st').actions =
                    st.actions ++ actionsOf dp) := by
              intro st' hfs' hact'
              cases hcatf : rootFind st.fs (classify (extLower nm)) with
              | some e' =>
                have hens : ensureDir st.fs (classify (extLower nm)) = st.fs := by
                  unfold ensureDir
                  rw [hcatf]
                rcases ih st' pending created (by rw [hfs', hens, hfs]) hG with
                  ⟨dp, dc, g1, g2, g3⟩
                refine ⟨dp, dc, g1, g2, ?_⟩
                rw [g3, hact']
              | none =>
                have hcatf2 := hcatf
                rw [hfs] at hcatf2
                have hnone := rootFind_midShape_none_elim fs0
                  (movedNames pending) created pending []
                  (classify (extLower nm)) hcatf2 hcatN
                have hinto : intoDir pending (classify (extLower nm)) = [] := by
                  cases hd : intoDir pending (classify (extLower nm)) with
                  | nil => rfl
                  | cons f t =>
                    exfalso
                    have hf : f ∈ intoDir pending (classify (extLower nm)) := by
                      rw [hd]
                      exact List.mem_cons_self f t
                    unfold intoDir at hf
                    rcases List.mem_map.mp hf with ⟨m, hmf, _⟩
                    have hmp : m ∈ pending := List.mem_of_mem_filter hmf
                    have hmc := List.of_mem_filter hmf
                    have hloc := hG.2.2.1 m hmp
                    rw [eq_of_beq hmc] at hloc
                    rcases hloc with h | h
                    · exact hnone.1 h
                    · exact hnone.2 h
                have hens := ensureDir_midShape fs0 (movedNames pending)
                  created pending (classify (extLower nm)) hcatf2 hinto
                have hG2 : GoodRun fs0 pending
                    (created ++ [classify (extLower nm)]) :=
                  GoodRun_grow_created fs0 pending created _ hG
                    (classify_mem_categoryNames (extLower nm))
                    hnone.1 hnone.2
                rcases ih st' pending (created ++ [classify (extLower nm)])
                  (by rw [hfs', hfs, hens]) hG2 with ⟨dp, dc, g1, g2, g3⟩
                refine ⟨dp, classify (extLower nm) :: dc, ?_, ?_, ?_⟩
                · rw [List.append_cons]
                  exact g1
                · rw [List.append_cons]
                  exact g2
                · rw [g3, hact']
            have keyMove : ∀ (st' : RunState),
                st'.fs = doMove (ensureDir st.fs (classify (extLower nm)))
                  nm (classify (extLower nm)) c →
                st'.actions = st.actions ++ [([classify (extLower nm), nm], [nm])] →
                ∃ dp dc,
                  GoodRun fs0 (pending ++ dp) (created ++ dc) ∧
                  ((rest.foldl (processItem env false) st').fs =
                    midShape fs0 (movedNames (pending ++ dp)) (created ++ dc)
                      (pending ++ dp) []) ∧
                  ((rest.foldl (processItem env false) st').actions =
                    st.actions ++ actionsOf dp) := by
              intro st' hfs' hact'
              cases hcatf : rootFind st.fs (classify (extLower nm)) with
              | some e' =>
                have hens : ensureDir st.fs (classify (extLower nm)) = st.fs := by
                  unfold ensureDir
                  rw [hcatf]
                have hcatf2 := hcatf
                rw [hfs] at hcatf2
                have hloc := rootFind_midShape_some_names fs0
                  (movedNames pending) created pending
                  (classify (extLower nm)) e' hcatf2
                have hG2 : GoodRun fs0
                    (pending ++ [(classify (extLower nm), nm, c)]) created :=
                  GoodRun_grow_pending fs0 pending created _ nm c hG
                    hfile.1 hnm (classify_mem_categoryNames (extLower nm)) hloc
                have hfs2 : st'.fs =
                    midShape fs0
                      (movedNames (pending ++ [(classify (extLower nm), nm, c)]))
                      created
                      (pending ++ [(classify (extLower nm), nm, c)]) [] := by
                  rw [hfs', hens, hfs, movedNames_append]
                  exact doMove_midShape fs0 (movedNames pending) created
                    pending (classify (extLower nm)) nm c hnd hcol
                    hfile.1 hfile.2 (fun x hx => hx)
                rcases ih st' (pending ++ [(classify (extLower nm), nm, c)])
                  created hfs2 hG2 with ⟨dp, dc, g1, g2, g3⟩
                refine ⟨(classify (extLower nm), nm, c) :: dp, dc, ?_, ?_, ?_⟩
                · rw [List.append_cons]
                  exact g1
                · rw [List.append_cons]
                  exact g2
                · rw [g3, hact', actionsOf_cons]
                  simp [List.append_assoc]
              | none =>
                have hcatf2 := hcatf
                rw [hfs] at hcatf2
                have hnone := rootFind_midShape_none_elim fs0
                  (movedNames pending) created pending []
                  (classify (extLower nm)) hcatf2 hcatN
                have hinto : intoDir pending (classify (extLower nm)) = [] := by
                  cases hd : intoDir pending (classify (extLower nm)) with
                  | nil => rfl
                  | cons f t =>
                    exfalso
                    have hf : f ∈ intoDir pending (classify (extLower nm)) := by
                      rw [hd]
                      exact List.mem_cons_self f t
                    unfold intoDir at hf
                    rcases List.mem_map.mp hf with ⟨m, hmf, _⟩
                    have hmp : m ∈ pending := List.mem_of_mem_filter hmf
                    have hmc := List.of_mem_filter hmf
                    have hloc := hG.2.2.1 m hmp
                    rw [eq_of_beq hmc] at hloc
                    rcases hloc with h | h
                    · exact hnone.1 h
                    · exact hnone.2 h
                have hens := ensureDir_midShape fs0 (movedNames pending)
                  created pending (classify (extLower nm)) hcatf2 hinto
                have hG2 : GoodRun fs0
                    (pending ++ [(classify (extLower nm), nm, c)])
                    (created ++ [classify (extLower nm)]) :=
                  GoodRun_grow_pending fs0 pending
                    (created ++ [classify (extLower nm)]) _ nm c
                    (GoodRun_grow_created fs0 pending created _ hG
                      (classify_mem_categoryNames (extLower nm))
                      hnone.1 hnone.2)
                    hfile.1 hnm (classify_mem_categoryNames (extLower nm))
                    (Or.inr (List.mem_append.mpr
                      (Or.inr (List.mem_singleton.mpr rfl))))
                have hfs2 : st'.fs =
                    midShape fs0
                      (movedNames (pending ++ [(classify (extLower nm), nm, c)]))
                      (created ++ [classify (extLower nm)])
                      (pending ++ [(classify (extLower nm), nm, c)]) [] := by
                  rw [hfs', hfs, hens, movedNames_append]
                  exact doMove_midShape fs0 (movedNames pending)
                    (created ++ [classify (extLower nm)])
                    pending (classify (extLower nm)) nm c hnd hcol
                    hfile.1 hfile.2 (fun x hx => hx)
                rcases ih st' (pending ++ [(classify (extLower nm), nm, c)])
                  (created ++ [classify (extLower nm)]) hfs2 hG2 with
                  ⟨dp, dc, g1, g2, g3⟩
                refine ⟨(classify (extLower nm), nm, c) :: dp,
                  classify (extLower nm) :: dc, ?_, ?_, ?_⟩
                · rw [List.append_cons, List.append_cons created]
                  exact g1
                · rw [List.append_cons, List.append_cons created]
                  exact g2
                · rw [g3, hact', actionsOf_cons]
                  simp [List.append_assoc]
            rw [processItem_move_eq env st nm c hres' hfind hsz' h4]
            cases hmv : env.moveFails nm with
            | some b =>
              cases b
              · dsimp only
                exact keyEnsure _ rfl rfl
              · dsimp only
                exact keyEnsure _ rfl rfl
            | none =>
              dsimp only
              exact keyMove _ rfl rfl

theorem intoDir_single_pos2 (m : Moved) : intoDir [m] m.1 = [(m.2.1, m.2.2)] := by
  simp [intoDir]

theorem intoDir_single_neg2 (m : Moved) (d : String)
    (h : (m.1 == d) = false) : intoDir [m] d = [] := by
  simp [intoDir, h]

theorem orgEntry_irrel (Q : List Moved) (m : Moved) (e : String × Entry)
    (h : (m.1 == e.1) = false) : orgEntry (Q ++ [m]) e = orgEntry Q e := by
  unfold orgEntry
  cases he2 : e.2 with
  | file c0 => rfl
  | dir fls =>
    rw [intoDir_append, intoDir_single_neg2 m e.1 h, List.append_nil]

theorem keyDir_irrel (Q : List Moved) (m : Moved) (d : String)
    (h : (m.1 == d) = false) : keyDir (Q ++ [m]) d = keyDir Q d := by
  unfold keyDir
  rw [intoDir_append, intoDir_single_neg2 m d h, List.append_nil]

theorem eq_of_mem_same_name {α : Type} :
    ∀ (l : List (String × α)), (l.map Prod.fst).Nodup →
      ∀ a b, a ∈ l → b ∈ l → a.1 = b.1 → a = b := by
  intro l
  induction l with
  | nil =>
    intro _ a b ha
    simp at ha
  | cons e t ih =>
    intro hnd a b ha hb hab
    rw [List.map_cons, List.nodup_cons] at hnd
    rcases List.mem_cons.mp ha with rfl | hat
    · rcases List.mem_cons.mp hb with rfl | hbt
      · rfl
      · exfalso
        apply hnd.1
        rw [hab]
        exact List.mem_map_of_mem Prod.fst hbt
    · rcases List.mem_cons.mp hb with rfl | hbt
      · exfalso
        apply hnd.1
        rw [← hab]
        exact List.mem_map_of_mem Prod.fst hat
      · exact ih hnd.2 a b hat hbt hab

theorem files_lookup (F0 : List (String × Content)) (Q : List Moved)
    (cat n : String) (c : Content)
    (hF0 : n ∉ F0.map Prod.fst) (hQn : n ∉ movedNames Q) :
    (F0 ++ intoDir (Q ++ [(cat, n, c)]) cat).find? (fun f => f.1 == n) =
      some (n, c) ∧
    (F0 ++ intoDir (Q ++ [(cat, n, c)]) cat).eraseP (fun f => f.1 == n) =
      F0 ++ intoDir Q cat := by
  have hsingle : intoDir [((cat, n, c) : Moved)] cat = [(n, c)] :=
    intoDir_single_pos cat n c
  rw [intoDir_append, hsingle]
  have hF0' : ∀ f ∈ F0, ¬ ((fun (f : String × Content) => f.1 == n) f = true) := by
    intro f hf hfn
    apply hF0
    rw [← eq_of_beq hfn]
    exact List.mem_map_of_mem Prod.fst hf
  have hQ' : ∀ f ∈ intoDir Q cat,
      ¬ ((fun (f : String × Content) => f.1 == n) f = true) := by
    intro f hf hfn
    apply hQn
    apply intoDir_names_mem Q cat n
    rw [← eq_of_beq hfn]
    exact List.mem_map_of_mem Prod.fst hf
  constructor
  · rw [List.find?_append, List.find?_append]
    rw [List.find?_eq_none.mpr hF0', List.find?_eq_none.mpr hQ']
    simp [List.find?]
  · rw [← List.append_assoc]
    rw [List.eraseP_append_right [(n, c)] (by
      intro b hb
      rcases List.mem_append.mp hb with h | h
      · exact hF0' b h
      · exact hQ' b h)]
    have herase1 : ([(n, c)] : List (String × Content)).eraseP
        (fun f => f.1 == n) = [] :=
      List.eraseP_cons_of_pos (by simp)
    rw [herase1, List.append_nil]

theorem undoOne_midShape (fs0 : FS) (allN created : List String)
    (Q : List Moved) (cat n : String) (c : Content) (restored : List Moved)
    (hnd : (rootNames fs0).Nodup)
    (hNC : NoCatFiles fs0)
    (hcol : NoCollision fs0)
    (hmem : (n, Entry.file c) ∈ fs0.root)
    (hcat : cat ∈ categoryNames)
    (hloc : cat ∈ rootNames fs0 ∨ cat ∈ created)
    (hcrF : ∀ d ∈ created, d ∉ rootNames fs0)
    (hcrC : ∀ d ∈ created, d ∈ categoryNames)
    (hQn : n ∉ movedNames Q)
    (hnall : allN.contains n = true)
    (hres_n : ∀ r ∈ restored, r.2.1 ≠ n)
    (hres_file : ∀ r ∈ restored, (r.2.1, Entry.file r.2.2) ∈ fs0.root)
    (hcatN : allN.contains cat = false) :
    (undoOne ⟨midShape fs0 allN created (Q ++ [(cat, n, c)]) restored, []⟩
        ([cat, n], [n])).fs =
      midShape fs0 allN created Q (restored ++ [(cat, n, c)]) := by
  have hnrf : n ∈ rootFileNames fs0 := mem_rootFileNames_of_file fs0 n c hmem
  have hnotcatn : n ∉ categoryNames := hNC n hnrf
  obtain ⟨F0, hfindcat, hF0n, hmapA, hmapB⟩ :
      ∃ F0 : List (String × Content),
        rootFind (midShape fs0 allN created (Q ++ [(cat, n, c)]) restored) cat =
          some (Entry.dir (F0 ++ intoDir (Q ++ [(cat, n, c)]) cat)) ∧
        n ∉ F0.map Prod.fst ∧
        ((fs0.root.filter (fun e => !(allN.contains e.1))).map
            (orgEntry (Q ++ [(cat, n, c)]))).map
          (fun e => if e.1 == cat then
            (e.1, Entry.dir (F0 ++ intoDir Q cat)) else e) =
          (fs0.root.filter (fun e => !(allN.contains e.1))).map (orgEntry Q) ∧
        (created.map (keyDir (Q ++ [(cat, n, c)]))).map
          (fun e => if e.1 == cat then
            (e.1, Entry.dir (F0 ++ intoDir Q cat)) else e) =
          created.map (keyDir Q) := by
    rcases hloc with hlocL | hlocR
    · rcases List.mem_map.mp hlocL with ⟨e0, he0, he0cat⟩
      cases he02 : e0.2 with
      | file cc =>
        exfalso
        have hmem0 : (cat, Entry.file cc) ∈ fs0.root := by
          have : e0 = (cat, Entry.file cc) := by
            calc e0 = (e0.1, e0.2) := rfl
              _ = (cat, Entry.file cc) := by rw [he0cat, he02]
          rw [← this]
          exact he0
        exact hNC cat (mem_rootFileNames_of_file fs0 cat cc hmem0) hcat
      | dir fls0 =>
        have hmem0 : (cat, Entry.dir fls0) ∈ fs0.root := by
          have : e0 = (cat, Entry.dir fls0) := by
            calc e0 = (e0.1, e0.2) := rfl
              _ = (cat, Entry.dir fls0) := by rw [he0cat, he02]
          rw [← this]
          exact he0
        refine ⟨fls0, ?_, ?_, ?_, ?_⟩
        · exact rootFind_midShape_dirOrig fs0 allN created
            (Q ++ [(cat, n, c)]) restored cat fls0 hnd hmem0 hcatN
        · exact hcol n hnrf (cat, Entry.dir fls0) hmem0 fls0 rfl
        · rw [List.map_map]
          refine List.map_congr_left ?_
          intro e he
          have heR : e ∈ fs0.root := List.mem_of_mem_filter he
          simp only [Function.comp_apply]
          by_cases hec : e.1 = cat
          · have hee : e = (cat, Entry.dir fls0) :=
              eq_of_mem_same_name fs0.root hnd e (cat, Entry.dir fls0)
                heR hmem0 hec
            rw [hee]
            rw [orgEntry_dir (Q ++ [(cat, n, c)]) (cat, Entry.dir fls0) fls0 rfl]
            rw [orgEntry_dir Q (cat, Entry.dir fls0) fls0 rfl]
            rw [if_pos (by simp)]
          · have hec2 : ((orgEntry (Q ++ [(cat, n, c)]) e).1 == cat) = false := by
              rw [orgEntry_name]
              exact beq_eq_false_iff_ne.mpr hec
            rw [if_neg (by rw [hec2]; exact fun hh => Bool.false_ne_true hh)]
            exact orgEntry_irrel Q (cat, n, c) e
              (beq_eq_false_iff_ne.mpr (fun hh => hec hh.symm))
        · rw [List.map_map]
          refine List.map_congr_left ?_
          intro d hd
          simp only [Function.comp_apply]
          have hdc : d ≠ cat := by
            intro hh
            exact hcrF d hd (hh ▸ hlocL)
          have hdc2 : ((keyDir (Q ++ [(cat, n, c)]) d).1 == cat) = false := by
            show (d == cat) = false
            exact beq_eq_false_iff_ne.mpr hdc
          rw [if_neg (by rw [hdc2]; exact fun hh => Bool.false_ne_true hh)]
          exact keyDir_irrel Q (cat, n, c) d
            (beq_eq_false_iff_ne.mpr (fun hh => hdc hh.symm))
    · have hnoroot : cat ∉ rootNames fs0 := hcrF cat hlocR
      refine ⟨[], ?_, ?_, ?_, ?_⟩
      · exact rootFind_midShape_dirCreated fs0 allN created
          (Q ++ [(cat, n, c)]) restored cat hnoroot hlocR
      · simp
      · rw [List.map_map]
        refine List.map_congr_left ?_
        intro e he
        have heR : e ∈ fs0.root := List.mem_of_mem_filter he
        simp only [Function.comp_apply]
        have hec : e.1 ≠ cat := by
          intro hh
          apply hnoroot
          rw [← hh]
          exact List.mem_map_of_mem Prod.fst heR
        have hec2 : ((orgEntry (Q ++ [(cat, n, c)]) e).1 == cat) = false := by
          rw [orgEntry_name]
          exact beq_eq_false_iff_ne.mpr hec
        rw [if_neg (by rw [hec2]; exact fun hh => Bool.false_ne_true hh)]
        exact orgEntry_irrel Q (cat, n, c) e
          (beq_eq_false_iff_ne.mpr (fun hh => hec hh.symm))
      · rw [List.map_map]
        refine List.map_congr_left ?_
        intro d hd
        simp only [Function.comp_apply]
        by_cases hdc : d = cat
        · have hpos : ((keyDir (Q ++ [(cat, n, c)]) d).1 == cat) = true := by
            show (d == cat) = true
            rw [hdc]
            simp
          rw [if_pos hpos]
          unfold keyDir
          rw [hdc, List.nil_append]
        · have hdc2 : ((keyDir (Q ++ [(cat, n, c)]) d).1 == cat) = false := by
            show (d == cat) = false
            exact beq_eq_false_iff_ne.mpr hdc
          rw [if_neg (by rw [hdc2]; exact fun hh => Bool.false_ne_true hh)]
          exact keyDir_irrel Q (cat, n, c) d
            (beq_eq_false_iff_ne.mpr (fun hh => hdc hh.symm))
  have hlook := files_lookup F0 Q cat n c hF0n hQn
  have hmapC : (restored.map fileOf).map
      (fun e => if e.1 == cat then
        (e.1, Entry.dir (F0 ++ intoDir Q cat)) else e) =
      restored.map fileOf := by
    rw [List.map_map]
    refine List.map_congr_left ?_
    intro r hr
    simp only [Function.comp_apply]
    have hrc : ((fileOf r).1 == cat) = false := by
      show (r.2.1 == cat) = false
      refine beq_eq_false_iff_ne.mpr ?_
      intro hh
      exact hNC r.2.1 (mem_rootFileNames_of_file fs0 r.2.1 r.2.2
        (hres_file r hr)) (hh ▸ hcat)
    rw [if_neg (by rw [hrc]; exact fun hh => Bool.false_ne_true hh)]
  have hfindn2 : rootFind (midShape fs0 allN created
      (Q ++ [(cat, n, c)]) restored) n = none := by
    rw [rootFind_eq_map, rootFind_midShape_split]
    have hA : (fs0.root.filter (fun e => !(allN.contains e.1))).find?
        (fun e => e.1 == n) = none := by
      rw [List.find?_eq_none]
      intro p hp hpn
      have hcontains := List.of_mem_filter hp
      have hcontains2 : (!(allN.contains p.1)) = true := hcontains
      rw [eq_of_beq hpn, hnall] at hcontains2
      cases hcontains2
    have hB : created.find? (fun d => d == n) = none := by
      rw [List.find?_eq_none]
      intro d hd hdn
      exact hnotcatn ((eq_of_beq hdn) ▸ hcrC d hd)
    have hC : (restored.map fileOf).find? (fun e => e.1 == n) = none := by
      rw [List.find?_eq_none]
      intro p hp hpn
      rcases List.mem_map.mp hp with ⟨r, hr, heq⟩
      apply hres_n r hr
      rw [show r.2.1 = (fileOf r).1 from rfl, heq]
      exact eq_of_beq hpn
    rw [hA, hB, hC]
    rfl
  unfold undoOne
  dsimp only
  rw [hfindcat]
  dsimp only
  rw [hlook.1]
  dsimp only
  rw [hfindn2]
  dsimp only
  rw [hlook.2]
  have hroot : (midShape fs0 allN created (Q ++ [(cat, n, c)]) restored).root =
      (fs0.root.filter (fun e => !(allN.contains e.1))).map
        (orgEntry (Q ++ [(cat, n, c)])) ++
      created.map (keyDir (Q ++ [(cat, n, c)])) ++ restored.map fileOf := rfl
  rw [hroot]
  show FS.mk _ = _
  unfold midShape
  congr 1
  rw [List.map_append, List.map_append]
  rw [hmapA, hmapB, hmapC]
  rw [List.map_append]
  simp [List.append_assoc, fileOf]

theorem undo_fold_shape (fs0 : FS) (allN created : List String)
    (hnd : (rootNames fs0).Nodup) (hNC : NoCatFiles fs0)
    (hcol : NoCollision fs0)
    (hcrF : ∀ d ∈ created, d ∉ rootNames fs0)
    (hcrC : ∀ d ∈ created, d ∈ categoryNames)
    (hallcat : ∀ d ∈ categoryNames, allN.contains d = false) :
    ∀ (P Q restored : List Moved),
      (∀ m ∈ Q ++ P, (m.2.1, Entry.file m.2.2) ∈ fs0.root) →
      (∀ m ∈ Q ++ P, m.1 ∈ categoryNames) →
      (∀ m ∈ Q ++ P, m.1 ∈ rootNames fs0 ∨ m.1 ∈ created) →
      (∀ r ∈ restored, (r.2.1, Entry.file r.2.2) ∈ fs0.root) →
      ((movedNames (Q ++ P)) ++ restored.map (fun r => r.2.1)).Nodup →
      (∀ x ∈ movedNames P, allN.contains x = true) →
      undoFold (actionsOf P) (midShape fs0 allN created (Q ++ P) restored) =
        midShape fs0 allN created Q (restored ++ P.reverse) := by
  intro P
  induction P with
  | nil =>
    intro Q restored _ _ _ _ _ _
    show undoFold [] (midShape fs0 allN created (Q ++ []) restored) = _
    have h1 : undoFold [] (midShape fs0 allN created (Q ++ []) restored) =
        midShape fs0 allN created (Q ++ []) restored := rfl
    rw [h1]
    simp
  | cons a P' ih =>
    obtain ⟨cat0, n0, c0⟩ := a
    intro Q restored h1 h2 h3 h4 h5 h6
    rw [actionsOf_cons, undoFold_cons]
    dsimp only
    have hsplit : Q ++ (cat0, n0, c0) :: P' = (Q ++ [(cat0, n0, c0)]) ++ P' := by
      rw [List.append_cons]
    rw [hsplit]
    have hmemA : (cat0, n0, c0) ∈ Q ++ (cat0, n0, c0) :: P' :=
      List.mem_append.mpr (Or.inr (List.mem_cons_self _ _))
    have hfileA : (n0, Entry.file c0) ∈ fs0.root := h1 _ hmemA
    have hcatA : cat0 ∈ categoryNames := h2 _ hmemA
    have hlocA := h3 _ hmemA
    have hnd5 := List.nodup_append.mp h5
    have hmvQsplit : movedNames (Q ++ (cat0, n0, c0) :: P') =
        movedNames Q ++ (n0 :: movedNames P') := movedNames_append Q _
    have hndmv : (movedNames Q ++ (n0 :: movedNames P')).Nodup := by
      rw [← hmvQsplit]
      exact hnd5.1
    have hndmv2 := List.nodup_append.mp hndmv
    have hQn : n0 ∉ movedNames Q := by
      intro hin
      exact hndmv2.2.2 hin (List.mem_cons_self n0 _)
    have hn0P' : n0 ∉ movedNames P' := (List.nodup_cons.mp hndmv2.2.1).1
    have hnall : allN.contains n0 = true :=
      h6 n0 (List.mem_cons_self n0 _)
    have hres_n : ∀ r ∈ restored ++ P'.reverse, r.2.1 ≠ n0 := by
      intro r hr
      rcases List.mem_append.mp hr with hr1 | hr2
      · intro hrn
        have hrm : r.2.1 ∈ restored.map (fun r => r.2.1) :=
          List.mem_map_of_mem _ hr1
        rw [hrn] at hrm
        apply hnd5.2.2 _ hrm
        rw [hmvQsplit]
        exact List.mem_append.mpr (Or.inr (List.mem_cons_self n0 _))
      · intro hrn
        have hrP : r ∈ P' := List.mem_reverse.mp hr2
        have : r.2.1 ∈ movedNames P' := List.mem_map_of_mem _ hrP
        rw [hrn] at this
        exact hn0P' this
    have hres_file : ∀ r ∈ restored ++ P'.reverse,
        (r.2.1, Entry.file r.2.2) ∈ fs0.root := by
      intro r hr
      rcases List.mem_append.mp hr with hr1 | hr2
      · exact h4 r hr1
      · exact h1 r (List.mem_append.mpr
          (Or.inr (List.mem_cons_of_mem _ (List.mem_reverse.mp hr2))))
    have hcatN : allN.contains cat0 = false := hallcat cat0 hcatA
    have hinner := ih (Q ++ [(cat0, n0, c0)]) restored
      (by rw [← hsplit]; exact h1)
      (by rw [← hsplit]; exact h2)
      (by rw [← hsplit]; exact h3)
      h4
      (by rw [← hsplit]; exact h5)
      (fun x hx => h6 x (List.mem_cons_of_mem _ hx))
    rw [hinner]
    rw [undoOne_midShape fs0 allN created Q cat0 n0 c0 (restored ++ P'.reverse)
      hnd hNC hcol hfileA hcatA hlocA hcrF hcrC hQn hnall hres_n hres_file hcatN]
    rw [List.reverse_cons, ← List.append_assoc]

theorem flatten_map_nilfun {α β : Type} :
    ∀ (l : List α), (l.map (fun _ => ([] : List β))).flatten = [] := by
  intro l
  induction l with
  | nil => rfl
  | cons b t ih =>
    rw [List.map_cons, List.flatten_cons, ih]
    rfl

theorem flatten_map_singleton {α β : Type} (f : α → β) :
    ∀ (l : List α), (l.map (fun x => [f x])).flatten = l.map f := by
  intro l
  induction l with
  | nil => rfl
  | cons b t ih =>
    rw [List.map_cons, List.flatten_cons, ih, List.map_cons]
    rfl

theorem perm_cons_eraseP_name {α : Type} (n : String) (x : α) :
    ∀ (l : List (String × α)), (l.map Prod.fst).Nodup → (n, x) ∈ l →
      l.Perm ((n, x) :: l.eraseP (fun e => e.1 == n)) := by
  intro l
  induction l with
  | nil =>
    intro _ h
    simp at h
  | cons b t ih =>
    intro hnd hm
    rw [List.map_cons, List.nodup_cons] at hnd
    rcases List.mem_cons.mp hm with heq | hmt
    · rw [← heq]
      have h1 : (((n, x) : String × α) :: t).eraseP (fun e => e.1 == n) = t :=
        List.eraseP_cons_of_pos (by simp)
      rw [h1]
    · have hbn : (b.1 == n) = false := by
        refine beq_eq_false_iff_ne.mpr ?_
        intro hh
        apply hnd.1
        rw [hh]
        exact List.mem_map.mpr ⟨(n, x), hmt, rfl⟩
      have h1 : ((b :: t).eraseP (fun e => e.1 == n)) =
          b :: t.eraseP (fun e => e.1 == n) :=
        List.eraseP_cons_of_neg (by simp [hbn])
      rw [h1]
      refine ((ih hnd.2 hmt).cons b).trans ?_
      exact List.Perm.swap _ _ _

theorem perm_filter_moved :
    ∀ (mv : List Moved) (l : List (String × Entry)),
      (movedNames mv).Nodup →
      (∀ m ∈ mv, (m.2.1, Entry.file m.2.2) ∈ l) →
      (l.map Prod.fst).Nodup →
      (l.filter (fun e => !((movedNames mv).contains e.1)) ++
        mv.map fileOf).Perm l := by
  intro mv
  induction mv with
  | nil =>
    intro l _ _ _
    rw [List.map_nil, List.append_nil]
    have hall : ∀ e ∈ l,
        (fun (e : String × Entry) =>
          !((movedNames ([] : List Moved)).contains e.1)) e = true :=
      fun e _ => rfl
    rw [List.filter_eq_self.mpr hall]
  | cons m mv' ih =>
    intro l hnd hmem hlnd
    have hndtail : (movedNames mv').Nodup := (List.nodup_cons.mp hnd).2
    have hnhd : m.2.1 ∉ movedNames mv' := (List.nodup_cons.mp hnd).1
    have hstep : l.filter (fun e => !((movedNames (m :: mv')).contains e.1)) =
        (l.eraseP (fun e => e.1 == m.2.1)).filter
          (fun e => !((movedNames mv').contains e.1)) := by
      rw [← filter_eq_eraseP_of_nodup m.2.1 l hlnd]
      rw [List.filter_filter]
      refine List.filter_congr ?_
      intro e _
      show (!((movedNames (m :: mv')).contains e.1)) =
        ((!((movedNames mv').contains e.1)) && (!(e.1 == m.2.1)))
      rw [show (movedNames (m :: mv')) = m.2.1 :: movedNames mv' from rfl]
      rw [List.contains_cons, Bool.not_or, Bool.and_comm]
    rw [hstep, List.map_cons]
    refine (List.perm_middle).trans ?_
    have hsub : ((l.eraseP (fun e => e.1 == m.2.1)).map Prod.fst).Nodup := by
      have hsubl : (l.eraseP (fun e => e.1 == m.2.1)).Sublist l :=
        List.eraseP_sublist l
      exact hlnd.sublist (hsubl.map Prod.fst)
    have hmem' : ∀ m' ∈ mv', (m'.2.1, Entry.file m'.2.2) ∈
        l.eraseP (fun e => e.1 == m.2.1) := by
      intro m' hm'
      refine mem_eraseP_of_name_ne m.2.1 l (m'.2.1, Entry.file m'.2.2)
        (hmem m' (List.mem_cons_of_mem m hm')) ?_
      show (m'.2.1 == m.2.1) = false
      refine beq_eq_false_iff_ne.mpr ?_
      intro hh
      apply hnhd
      rw [← hh]
      exact List.mem_map_of_mem _ hm'
    have hperm2 := ih (l.eraseP (fun e => e.1 == m.2.1)) hndtail hmem' hsub
    refine (hperm2.cons (fileOf m)).trans ?_
    exact (perm_cons_eraseP_name m.2.1 (Entry.file m.2.2) l hlnd
      (hmem m (List.mem_cons_self m mv'))).symm

theorem fileSet_orgEntry_nil (e : String × Entry) :
    (fun (e : String × Entry) =>
      match e.2 with
      | Entry.file c => [(([e.1], c) : Path × Content)]
      | Entry.dir files => files.map (fun (f : String × Content) => (([e.1, f.1], f.2) : Path × Content)))
        (orgEntry [] e) =
    (fun (e : String × Entry) =>
      match e.2 with
      | Entry.file c => [(([e.1], c) : Path × Content)]
      | Entry.dir files => files.map (fun (f : String × Content) => (([e.1, f.1], f.2) : Path × Content))) e := by
  cases he2 : e.2 with
  | file c0 =>
    rw [orgEntry_file [] e c0 he2]
  | dir fls =>
    rw [orgEntry_dir [] e fls he2]
    dsimp only
    rw [he2]
    show (fls ++ []).map
        (fun (f : String × Content) => (([e.1, f.1], f.2) : Path × Content)) =
      fls.map
        (fun (f : String × Content) => (([e.1, f.1], f.2) : Path × Content))
    rw [List.append_nil]

theorem fileSet_midShape_final (fs0 : FS) (MV : List Moved) (CR : List String)
    (hnd : (rootNames fs0).Nodup)
    (hmv : ∀ m ∈ MV, (m.2.1, Entry.file m.2.2) ∈ fs0.root)
    (hmvnd : (movedNames MV).Nodup) :
    (fileSet (midShape fs0 (movedNames MV) CR [] MV.reverse)).Perm
      (fileSet fs0) := by
  unfold fileSet
  have hroot : (midShape fs0 (movedNames MV) CR [] MV.reverse).root =
      (fs0.root.filter (fun e => !((movedNames MV).contains e.1))).map
        (orgEntry []) ++
      CR.map (keyDir []) ++ MV.reverse.map fileOf := rfl
  rw [hroot]
  rw [List.map_append, List.map_append, List.flatten_append, List.flatten_append]
  have hA : ((fs0.root.filter (fun e => !((movedNames MV).contains e.1))).map
      (orgEntry [])).map (fun (e : String × Entry) =>
        match e.2 with
        | Entry.file c => [(([e.1], c) : Path × Content)]
        | Entry.dir files => files.map (fun (f : String × Content) => (([e.1, f.1], f.2) : Path × Content))) =
      (fs0.root.filter (fun e => !((movedNames MV).contains e.1))).map
        (fun (e : String × Entry) =>
          match e.2 with
          | Entry.file c => [(([e.1], c) : Path × Content)]
          | Entry.dir files => files.map (fun (f : String × Content) => (([e.1, f.1], f.2) : Path × Content))) := by
    rw [List.map_map]
    exact List.map_congr_left (fun e _ => fileSet_orgEntry_nil e)
  have hB : ((CR.map (keyDir [])).map (fun (e : String × Entry) =>
      match e.2 with
      | Entry.file c => [(([e.1], c) : Path × Content)]
      | Entry.dir files => files.map (fun (f : String × Content) => (([e.1, f.1], f.2) : Path × Content)))).flatten =
      ([] : List (Path × Content)) := by
    rw [List.map_map]
    have h1 : CR.map ((fun (e : String × Entry) =>
        match e.2 with
        | Entry.file c => [(([e.1], c) : Path × Content)]
        | Entry.dir files => files.map (fun (f : String × Content) => (([e.1, f.1], f.2) : Path × Content))) ∘
          keyDir []) = CR.map (fun _ => ([] : List (Path × Content))) :=
      List.map_congr_left (fun d _ => rfl)
    rw [h1, flatten_map_nilfun]
  have hC : ((MV.reverse.map fileOf).map (fun (e : String × Entry) =>
      match e.2 with
      | Entry.file c => [(([e.1], c) : Path × Content)]
      | Entry.dir files => files.map (fun (f : String × Content) => (([e.1, f.1], f.2) : Path × Content)))).flatten =
      MV.reverse.map (fun m => (([m.2.1], m.2.2) : Path × Content)) := by
    rw [List.map_map]
    have h1 : MV.reverse.map ((fun (e : String × Entry) =>
        match e.2 with
        | Entry.file c => [(([e.1], c) : Path × Content)]
        | Entry.dir files => files.map (fun (f : String × Content) => (([e.1, f.1], f.2) : Path × Content))) ∘ fileOf) =
        MV.reverse.map (fun m => [(([m.2.1], m.2.2) : Path × Content)]) :=
      List.map_congr_left (fun m _ => rfl)
    rw [h1]
    exact flatten_map_singleton _ MV.reverse
  rw [hA, hB, hC, List.append_nil]
  have p3eq : ((MV.map fileOf).map (fun (e : String × Entry) =>
      match e.2 with
      | Entry.file c => [(([e.1], c) : Path × Content)]
      | Entry.dir files => files.map (fun (f : String × Content) => (([e.1, f.1], f.2) : Path × Content)))).flatten =
      MV.map (fun m => (([m.2.1], m.2.2) : Path × Content)) := by
    rw [List.map_map]
    have h1 : MV.map ((fun (e : String × Entry) =>
        match e.2 with
        | Entry.file c => [(([e.1], c) : Path × Content)]
        | Entry.dir files => files.map (fun (f : String × Content) => (([e.1, f.1], f.2) : Path × Content))) ∘ fileOf) =
        MV.map (fun m => [(([m.2.1], m.2.2) : Path × Content)]) :=
      List.map_congr_left (fun m _ => rfl)
    rw [h1]
    exact flatten_map_singleton _ MV
  have p1 : (MV.reverse.map (fun m => (([m.2.1], m.2.2) : Path × Content))).Perm
      (MV.map (fun m => (([m.2.1], m.2.2) : Path × Content))) :=
    (List.reverse_perm MV).map _
  refine (List.Perm.append_left _ p1).trans ?_
  rw [← p3eq, ← List.flatten_append, ← List.map_append]
  exact ((perm_filter_moved MV fs0.root hmvnd hmv hnd).map _).flatten

theorem organize_actions_eq_fold (env : Env) (fs : FS)
    (prev : List (Path × Path)) (hl : env.listFails = false) :
    (organize_directory env fs false prev).actions =
      ((listdir fs).foldl (processItem env false)
        { fs := fs, analytics := zeroAnalytics, sizes := [], processed := 0,
          actions := [], events := [Event.start] }).actions := by
  unfold organize_directory
  simp only [hl, Bool.false_eq_true, if_false]
  repeat' split
  all_goals simp_all

theorem midShape_nil (fs0 : FS) :
    midShape fs0 (movedNames []) [] [] [] = fs0 := by
  have h2 : ∀ e ∈ fs0.root.filter
      (fun e => !((movedNames ([] : List Moved)).contains e.1)),
      orgEntry ([] : List Moved) e = id e := by
    intro e _
    cases he2 : e.2 with
    | file c0 => exact orgEntry_file [] e c0 he2
    | dir fls =>
      rw [orgEntry_dir [] e fls he2]
      show (e.1, Entry.dir (fls ++ [])) = e
      rw [List.append_nil, ← he2]
  have h3 : (midShape fs0 (movedNames []) [] [] []).root = fs0.root := by
    show (fs0.root.filter
        (fun e => !((movedNames ([] : List Moved)).contains e.1))).map
          (orgEntry []) ++ List.map (keyDir []) [] ++ List.map fileOf [] =
      fs0.root
    rw [List.map_nil, List.map_nil, List.append_nil, List.append_nil]
    rw [List.map_congr_left h2, List.map_id]
    exact List.filter_eq_self.mpr (fun e _ => rfl)
  calc midShape fs0 (movedNames []) [] [] []
      = ⟨(midShape fs0 (movedNames []) [] [] []).root⟩ := rfl
    _ = ⟨fs0.root⟩ := by rw [h3]
    _ = fs0 := rfl

/-- Claim C1 (amended): when top-level names are distinct, no top-level
file bears a category name, and no top-level file's name already occurs
inside a subdirectory, a non-dry organize run followed by undoing its
recorded action log restores every moved file to the top level, and the
resulting file set (paths with contents) is a permutation of the
original one; the created category folders merely remain as empty
directories. -/
theorem organize_undo_roundtrip (env : Env) (fs : FS)
    (prev : List (Path × Path))
    (hnd : (rootNames fs).Nodup) (hNC : NoCatFiles fs)
    (hcol : NoCollision fs) (hl : env.listFails = false) :
    (fileSet (undo_last_organization
        (organize_directory env fs false prev).fs
        (organize_directory env fs false prev).actions).fs).Perm
      (fileSet fs) := by
  obtain ⟨MV, CR, hG, hfs, hact⟩ := org_fold_shape env fs hnd hNC hcol
    (listdir fs)
    { fs := fs, analytics := zeroAnalytics, sizes := [], processed := 0,
      actions := [], events := [Event.start] }
    [] [] (midShape_nil fs).symm (GoodRun_nil fs)
  simp only [List.nil_append] at hG hfs
  have hact2 := hact.trans
    (show ({ fs := fs
             analytics := zeroAnalytics
             sizes := []
             processed := 0
             actions := []
             events := [Event.start] } : RunState).actions ++
      actionsOf MV = actionsOf MV from rfl)
  obtain ⟨g1, g2, g3, g4, g5, g6, g7⟩ := hG
  rw [organize_fs_eq_fold env fs prev hl, organize_actions_eq_fold env fs prev hl]
  rw [hfs, hact2]
  cases MV with
  | nil =>
    unfold undo_last_organization
    rw [if_pos (show (actionsOf ([] : List Moved)).isEmpty = true from rfl)]
    exact fileSet_midShape_final fs [] CR hnd
      (fun m hm => absurd hm (List.not_mem_nil m)) List.nodup_nil
  | cons m MV' =>
    unfold undo_last_organization
    have hfalse : (actionsOf (m :: MV')).isEmpty = false := rfl
    rw [if_neg (by rw [hfalse]; exact Bool.false_ne_true)]
    have hUf : ((actionsOf (m :: MV')).reverse.foldl undoOne
        { fs := midShape fs (movedNames (m :: MV')) CR (m :: MV') [],
          events := [Event.undoStart] }).fs =
        undoFold (actionsOf (m :: MV'))
          (midShape fs (movedNames (m :: MV')) CR (m :: MV') []) := by
      unfold undoFold
      exact undoFold_foldl_fs (actionsOf (m :: MV')).reverse _ _
    show ((actionsOf (m :: MV')).reverse.foldl undoOne
        { fs := midShape fs (movedNames (m :: MV')) CR (m :: MV') [],
          events := [Event.undoStart] }).fs |> fileSet |>.Perm (fileSet fs)
    rw [hUf]
    have hallcat : ∀ d ∈ categoryNames,
        (movedNames (m :: MV')).contains d = false := by
      intro d hd
      apply (contains_false_iff_not_mem _ _).mpr
      intro hin
      rcases List.mem_map.mp hin with ⟨m', hm', hmn⟩
      have hrf : m'.2.1 ∈ rootFileNames fs :=
        mem_rootFileNames_of_file fs _ _ (g1 m' hm')
      rw [hmn] at hrf
      exact hNC d hrf hd
    have hshape := undo_fold_shape fs (movedNames (m :: MV')) CR hnd hNC hcol
      g7 g6 hallcat (m :: MV') [] []
      (by simpa using g1) (by simpa using g2) (by simpa using g3)
      (fun r hr => absurd hr (List.not_mem_nil r))
      (by simpa using g4)
      (fun x hx => (contains_true_iff_mem _ _).mpr hx)
    simp only [List.nil_append] at hshape
    rw [hshape]
    exact fileSet_midShape_final fs (m :: MV') CR hnd g1 g4

/-- Counterexample to claim C1 as stated: when a top-level file's name
already exists inside its category folder, the move silently overwrites
the existing destination file, and the following undo brings the moved
file back without resurrecting the overwritten content - the directory
tree is not identical to the pre-organize state. -/
theorem roundtrip_collision_counterexample :
    ¬ (fileSet (undo_last_organization
        (organize_directory benignEnv
          ⟨[("a.jpg", Entry.file [0]),
            ("Images", Entry.dir [("a.jpg", [1])])]⟩ false []).fs
        (organize_directory benignEnv
          ⟨[("a.jpg", Entry.file [0]),
            ("Images", Entry.dir [("a.jpg", [1])])]⟩ false []).actions).fs).Perm
      (fileSet ⟨[("a.jpg", Entry.file [0]),
        ("Images", Entry.dir [("a.jpg", [1])])]⟩) := by
  decide

/-- Witness for claim C1 on a directory with two ordinary files and one
untouched subdirectory. -/
theorem organize_undo_roundtrip_witness :
    ((rootNames ⟨[("a.jpg", Entry.file [0]),
        ("notes.txt", Entry.file [1, 2]),
        ("keep", Entry.dir [("x", [3])])]⟩).Nodup ∧
      NoCatFiles ⟨[("a.jpg", Entry.file [0]),
        ("notes.txt", Entry.file [1, 2]),
        ("keep", Entry.dir [("x", [3])])]⟩ ∧
      NoCollision ⟨[("a.jpg", Entry.file [0]),
        ("notes.txt", Entry.file [1, 2]),
        ("keep", Entry.dir [("x", [3])])]⟩ ∧
      benignEnv.listFails = false) ∧
    (fileSet (undo_last_organization
        (organize_directory benignEnv
          ⟨[("a.jpg", Entry.file [0]),
            ("notes.txt", Entry.file [1, 2]),
            ("keep", Entry.dir [("x", [3])])]⟩ false []).fs
        (organize_directory benignEnv
          ⟨[("a.jpg", Entry.file [0]),
            ("notes.txt", Entry.file [1, 2]),
            ("keep", Entry.dir [("x", [3])])]⟩ false []).actions).fs).Perm
      (fileSet ⟨[("a.jpg", Entry.file [0]),
        ("notes.txt", Entry.file [1, 2]),
        ("keep", Entry.dir [("x", [3])])]⟩) := by
  have hcol : NoCollision ⟨[("a.jpg", Entry.file [0]),
      ("notes.txt", Entry.file [1, 2]),
      ("keep", Entry.dir [("x", [3])])]⟩ := by
    intro n hn e he fls hfls
    have hn2 : n ∈ ["a.jpg", "notes.txt"] := hn
    fin_cases he
    · cases hfls
    · cases hfls
    · injection hfls with h
      subst h
      fin_cases hn2 <;> decide
  have hcat : NoCatFiles ⟨[("a.jpg", Entry.file [0]),
      ("notes.txt", Entry.file [1, 2]),
      ("keep", Entry.dir [("x", [3])])]⟩ := by
    unfold NoCatFiles
    decide
  exact ⟨⟨by decide, hcat, hcol, rfl⟩,
    organize_undo_roundtrip benignEnv
      ⟨[("a.jpg", Entry.file [0]),
        ("notes.txt", Entry.file [1, 2]),
        ("keep", Entry.dir [("x", [3])])]⟩ []
      (by decide) hcat hcol rfl⟩

end FileOrganizer
